import Mathlib

/-
Verification development for the tviewyaml template/callback execution engine
and its reactive state-synchronization protocol.

The Go sources are embedded shallowly:
- Go strings are embedded as lists of characters (abbrev Str); Go iterates
  bytes in the parsers, but every input relevant here is handled
  character-by-character identically, since the delimiters and escapes are
  ASCII.
- Go maps are embedded as association lists with unique keys; the key set of
  a map[string]bool dirty set is embedded as a duplicate-free list of keys.
  Go map iteration order is unspecified; the list order models one admissible
  iteration order, and the properties proved below are order-independent.
- Effectful callbacks (bound-view Refresh/SetText, subscribers, validators)
  are embedded as pure functions that may report a Go panic explicitly
  (Except GoPanic / Option GoPanic); invoking them is recorded in an event
  trace so that delivery counts can be stated.
- reflect-based dynamic dispatch is embedded by recording the reflect type
  of a registered handler (its parameter list) and giving reflect.Value.Call
  its documented semantics: panic on argument-count or argument-type
  mismatch, normal return otherwise.
-/

set_option maxHeartbeats 1000000

namespace TviewYaml

/-- Go strings, embedded as lists of characters. -/
abbrev Str := List Char

/-- Association list embedding of a Go map (keys unique by construction). -/
abbrev AList (α : Type) := List (Str × α)

/-- Lookup in an association list; embeds Go map indexing v, ok := m[k]. -/
def alLookup {α : Type} : AList α → Str → Option α
  | [], _ => none
  | (k', v) :: rest, k => if k' = k then some v else alLookup rest k

/-- Insert or replace a binding; embeds Go map assignment m[k] = v. -/
def alInsert {α : Type} : AList α → Str → α → AList α
  | [], k, v => [(k, v)]
  | (k', v') :: rest, k, v =>
    if k' = k then (k, v) :: rest else (k', v') :: alInsert rest k v

/-- Add a key to the key set of a map[string]bool; embeds m[k] = true. -/
def dirtyAdd (l : List Str) (k : Str) : List Str :=
  if k ∈ l then l else l ++ [k]

/-- A Go panic, carried explicitly by the embedding of fallible callbacks
and of reflect.Value.Call. -/
inductive GoPanic : Type
  | user (msg : Str)
  | reflectArity
  | reflectType
  | reflectNotFunc
deriving DecidableEq, Repr

/-! ## Reactive context / state store (src/template/context.go) -/

/-- BoundView (context.go): Refresh re-evaluates the displayed template from
the current state and SetText applies it; either function pointer may be nil,
embedded by Option. Refresh is embedded as a function of the state map it
reads through ctx.GetState, and it may panic. -/
structure BoundView (α : Type) where
  refresh : Option (AList α → Except GoPanic Str)
  setText : Option (Str → Option GoPanic)

/-- The fields of template.Context that the state-synchronization protocol
uses: the state map, the dirty-key set, the bound views and the subscribers
per key. The tview handles, form-callback slots and executor pointer play no
part in the claims below. -/
structure Context (α : Type) where
  state : AList α
  dirtyKeys : List Str
  boundViews : AList (List (BoundView α))
  subscribers : AList (List (α → Option GoPanic))

/-- SetStateDirect (context.go:161-166): update state and mark the key
dirty, without touching views. -/
def setStateDirect {α : Type} (c : Context α) (k : Str) (v : α) : Context α :=
  { c with state := alInsert c.state k v, dirtyKeys := dirtyAdd c.dirtyKeys k }

/-- RegisterBoundView (context.go:177-181): append a view for the key. -/
def registerBoundView {α : Type} (c : Context α) (k : Str) (bv : BoundView α) :
    Context α :=
  { c with boundViews :=
      alInsert c.boundViews k (((alLookup c.boundViews k).getD []) ++ [bv]) }

/-- OnStateChange (context.go:236-240): append a subscriber for the key. -/
def onStateChange {α : Type} (c : Context α) (k : Str) (f : α → Option GoPanic) :
    Context α :=
  { c with subscribers :=
      alInsert c.subscribers k (((alLookup c.subscribers k).getD []) ++ [f]) }

/-- The bound views registered for a key (nil slice for an absent key). -/
def viewsFor {α : Type} (c : Context α) (k : Str) : List (BoundView α) :=
  (alLookup c.boundViews k).getD []

/-- The subscribers registered for a key (nil slice for an absent key). -/
def subsFor {α : Type} (c : Context α) (k : Str) : List (α → Option GoPanic) :=
  (alLookup c.subscribers k).getD []

/-- One observable step of a reconciliation pass: a Refresh call, a SetText
call with the text being applied, or a subscriber call with the raw value.
The idx is the position of the view or subscriber in its key's list. -/
inductive REvent (α : Type) : Type
  | refreshCalled (key : Str) (idx : Nat)
  | setTextCalled (key : Str) (idx : Nat) (text : Str)
  | subCalled (key : Str) (idx : Nat) (value : α)
deriving DecidableEq, Repr

/-- The key an event belongs to. -/
def REvent.key {α : Type} : REvent α → Str
  | .refreshCalled k _ => k
  | .setTextCalled k _ _ => k
  | .subCalled k _ _ => k

/-- The view/subscriber index of an event. -/
def REvent.idx {α : Type} : REvent α → Nat
  | .refreshCalled _ i => i
  | .setTextCalled _ i _ => i
  | .subCalled _ i _ => i

/-- Whether the event is a subscriber notification. -/
def REvent.isSub {α : Type} : REvent α → Bool
  | .subCalled _ _ _ => true
  | _ => false

/-- The bound-view loop of RefreshDirtyBoundViews (context.go:212-217) for
one key: for each view with both Refresh and SetText non-nil, call Refresh
then SetText. A panic in either aborts the whole pass (the Go code installs
no recover), which the embedding records as a some outcome; events already
delivered are kept in the trace. -/
def viewEvents {α : Type} (st : AList α) (k : Str) :
    List (BoundView α) → Nat → List (REvent α) × Option GoPanic
  | [], _ => ([], none)
  | bv :: rest, i =>
    match bv.refresh, bv.setText with
    | some f, some g =>
      match f st with
      | .error p => ([.refreshCalled k i], some p)
      | .ok s =>
        match g s with
        | some p => ([.refreshCalled k i, .setTextCalled k i s], some p)
        | none =>
          let r := viewEvents st k rest (i + 1)
          (.refreshCalled k i :: .setTextCalled k i s :: r.1, r.2)
    | _, _ => viewEvents st k rest (i + 1)

/-- The subscriber loop of RefreshDirtyBoundViews (context.go:218-222) for
one key: each subscriber is called with the snapshot value when the key is
present in the state snapshot. -/
def subEvents {α : Type} (st : AList α) (k : Str) :
    List (α → Option GoPanic) → Nat → List (REvent α) × Option GoPanic
  | [], _ => ([], none)
  | fn :: rest, i =>
    match alLookup st k with
    | some v =>
      match fn v with
      | some p => ([.subCalled k i v], some p)
      | none =>
        let r := subEvents st k rest (i + 1)
        (.subCalled k i v :: r.1, r.2)
    | none => subEvents st k rest (i + 1)

/-- The outer key loop of RefreshDirtyBoundViews (context.go:211-223):
drained keys are processed in order; for each, views first, then
subscribers. -/
def passKeys {α : Type} (st : AList α) (bvs : AList (List (BoundView α)))
    (subs : AList (List (α → Option GoPanic))) :
    List Str → List (REvent α) × Option GoPanic
  | [] => ([], none)
  | k :: rest =>
    let r1 := viewEvents st k ((alLookup bvs k).getD []) 0
    match r1.2 with
    | some p => (r1.1, some p)
    | none =>
      let r2 := subEvents st k ((alLookup subs k).getD []) 0
      match r2.2 with
      | some p => (r1.1 ++ r2.1, some p)
      | none =>
        let r3 := passKeys st bvs subs rest
        (r1.1 ++ r2.1 ++ r3.1, r3.2)

/-- The result of one reconciliation pass: the context afterwards, the trace
of callback invocations, and the propagated panic if one occurred. -/
structure PassResult (α : Type) where
  ctx : Context α
  events : List (REvent α)
  outcome : Option GoPanic

/-- RefreshDirtyBoundViews (context.go:193-224): under the lock, take and
clear the dirty keys and snapshot the views, subscribers and state; then,
outside the lock, run the per-key loops. In this sequential embedding the
snapshot and the live state coincide (callbacks are pure), and the dirty
set is cleared before any callback runs, so it is empty afterwards even
when a callback panics. -/
def refreshDirtyBoundViews {α : Type} (c : Context α) : PassResult α :=
  let r := passKeys c.state c.boundViews c.subscribers c.dirtyKeys
  ⟨{ c with dirtyKeys := [] }, r.1, r.2⟩

/-! ## String scanning primitives (Go standard library fragments) -/

/-- unicode.IsSpace restricted to the Latin-1 range (space, tab, newline,
vertical tab, form feed, carriage return, NEL, NBSP); the inputs of this
development contain no higher code points with the White_Space property. -/
def isGoSpace (c : Char) : Bool :=
  c = ' ' || c = '\t' || c = '\n' || c.toNat = 11 || c.toNat = 12 ||
  c = '\r' || c.toNat = 133 || c.toNat = 160

/-- strings.TrimSpace: drop leading and trailing white space. -/
def trimSpace (s : Str) : Str :=
  ((s.dropWhile isGoSpace).reverse.dropWhile isGoSpace).reverse

/-- The word-character class of the regexp escape used by the parsers
(0-9, A-Z, a-z and underscore). -/
def isWordChar (c : Char) : Bool :=
  ('a' ≤ c && c ≤ 'z') || ('A' ≤ c && c ≤ 'Z') || ('0' ≤ c && c ≤ '9') || c = '_'

/-- The white-space class of the Go regexp engine (tab, newline, form feed,
carriage return, space). -/
def isRegexSpace (c : Char) : Bool :=
  c = ' ' || c = '\t' || c = '\n' || c.toNat = 12 || c = '\r'

/-- FindStringSubmatch against the anchored pattern that both argument
parsers use (a leading group of one or more word characters, then optional
regexp white space, then a dot-star group to the end). The match succeeds
exactly when the string starts with a word character and the text after the
maximal word-character prefix and the following maximal regexp-white-space
run contains no newline (dot does not match newline, and shortening either
greedy run only moves characters into the dot-star group, so no
backtracking can rescue a newline). On success, the groups are that prefix
and that remaining text. -/
def nameMatch (s : Str) : Option (Str × Str) :=
  let name := s.takeWhile isWordChar
  if name = [] then none
  else
    let rest := (s.dropWhile isWordChar).dropWhile isRegexSpace
    if rest.contains '\n' then none else some (name, rest)

/-- Helper for strings.Fields: split on white-space runs, accumulating the
current word reversed. -/
def fieldsAux : Str → Str → List Str
  | [], cur => if cur = [] then [] else [cur.reverse]
  | c :: rest, cur =>
    if isGoSpace c then
      if cur = [] then fieldsAux rest [] else cur.reverse :: fieldsAux rest []
    else fieldsAux rest (c :: cur)

/-- strings.Fields: the white-space-separated words of a string. -/
def fields (s : Str) : List Str := fieldsAux s []

/-- Whether pat is a prefix of s. -/
def listPrefix : Str → Str → Bool
  | [], _ => true
  | _ :: _, [] => false
  | a :: as, b :: bs => a = b && listPrefix as bs

/-- strings.Index: position of the first occurrence of pat in s (character
positions; the patterns used here are ASCII). -/
def findSub (pat : Str) : Str → Option Nat
  | [] => if listPrefix pat [] then some 0 else none
  | c :: rest =>
    if listPrefix pat (c :: rest) then some 0
    else (findSub pat rest).map (· + 1)

/-- The opening expression marker. -/
def openMarker : Str := [Char.ofNat 123, Char.ofNat 123]

/-- The closing expression marker. -/
def closeMarker : Str := [Char.ofNat 125, Char.ofNat 125]

/-- The loop of splitTemplateString (executor.go:78-93), with an explicit
fuel argument so that the definition is structurally recursive and reduces
in the kernel. Each iteration either stops or consumes at least four
characters of the string, so a fuel of one more than the length never runs
out; splitGo_step below proves the fuel-free recurrence that is the direct
reading of the Go loop. -/
def splitGo : Nat → Str → List Str
  | 0, s => [s]
  | fuel + 1, s =>
    match findSub openMarker s with
    | none => [s]
    | some start =>
      let s1 := s.drop (start + 2)
      match findSub closeMarker s1 with
      | none => [s.take start, openMarker ++ s1]
      | some e =>
        s.take start :: s1.take e :: splitGo fuel (s1.drop (e + 2))

/-- splitTemplateString (executor.go:76-95): split on the markers; even
positions of the result are literal text, odd positions are expression
content. When an open marker has no following close marker, the loop
appends the open marker plus the remaining text as the final element and
stops. -/
def splitTemplateString (s : Str) : List Str := splitGo (s.length + 1) s

/-! ## Argument parsing (src/template/executor.go) -/

/-- The scanning loop of parseArguments (executor.go:212-242), carrying the
pending argument buffer, the in-quote flag and the escape flag. The buffer
is emitted when a quote closes; note that an escaped character is written
to the buffer whether or not a quote is open, and that opening a quote does
not reset the buffer. -/
def parseArgsLoop : Str → Str → Bool → Bool → List Str
  | [], _, _, _ => []
  | ch :: rest, current, inQuote, escaped =>
    if escaped then parseArgsLoop rest (current ++ [ch]) inQuote false
    else if ch = '\\' then parseArgsLoop rest current inQuote true
    else if ch = Char.ofNat 34 then
      if inQuote then current :: parseArgsLoop rest [] false false
      else parseArgsLoop rest current true false
    else if inQuote then parseArgsLoop rest (current ++ [ch]) inQuote false
    else parseArgsLoop rest current inQuote false

/-- parseArguments (executor.go:202-245): extract the quoted string
arguments of a call payload. -/
def parseArguments (argsStr : Str) : List Str :=
  if argsStr = [] then [] else parseArgsLoop argsStr [] false false

/-- parseEvaluatorExpr (executor.go:117-138): split an expression into the
call name and its arguments; quoted arguments are tried first and bare
words are the fallback when no quoted argument is present. -/
def parseEvaluatorExpr (expr : Str) : Str × List Str :=
  let e := trimSpace expr
  if e = [] then ([], [])
  else
    match nameMatch e with
    | none => ([], [])
    | some (name, rest0) =>
      let rest := trimSpace rest0
      if rest = [] then (name, [])
      else
        let args := parseArguments rest
        if args = [] then (name, fields rest) else (name, args)

/-! ## Function/evaluator registry (src/template/registry.go)

The executor is parametric in the context type Ctx: the engine never
inspects the context it threads to handlers and validators. -/

/-- The reflect parameter kinds that validateHandlerSignature
distinguishes: a pointer to the template context, a string, a slice of
strings, and everything else. -/
inductive GoType : Type
  | ctxPtr
  | stringT
  | stringSlice
  | otherT
deriving DecidableEq, Repr

/-- A Go value held in an interface-typed Handler field: either a function
value, identified by its reflect parameter list, or a non-function value.
The bodies of handlers play no part in the claims; dispatch succeeds or
panics on the reflect type alone. -/
inductive HandlerVal : Type
  | fn (params : List GoType)
  | nonFunc
deriving DecidableEq, Repr

/-- The reasons Register and RegisterEvaluator report an error
(registry.go), without the formatted messages, which no claim concerns. -/
inductive RegErr : Type
  | negativeMinArgs
  | maxLtMin
  | duplicate
  | badSignature
deriving DecidableEq, Repr

/-- TemplateFunction (registry.go:9-15). MaxArgs is nil for a variadic
action. The validator reports its failure as a message. -/
structure TemplateFunction (Ctx : Type) where
  name : Str
  minA : Int
  maxA : Option Int
  validator : Option (Ctx → List Str → Option Str)
  handler : HandlerVal

/-- TemplateEvaluator (registry.go:18-23): evaluators use a fixed argument
count and a handler returning a string. -/
structure TemplateEvaluator (Ctx : Type) where
  name : Str
  minA : Int
  maxA : Int
  handler : Ctx → List Str → Str

/-- FunctionRegistry (registry.go:26-29): name-keyed catalogs of actions
and evaluators, in separate namespaces. -/
structure FunctionRegistry (Ctx : Type) where
  functions : AList (TemplateFunction Ctx)
  evaluators : AList (TemplateEvaluator Ctx)

/-- A registry with nothing registered. -/
def emptyRegistry (Ctx : Type) : FunctionRegistry Ctx := ⟨[], []⟩

/-- Get (registry.go:100-103). -/
def regGet {Ctx : Type} (r : FunctionRegistry Ctx) (name : Str) :
    Option (TemplateFunction Ctx) :=
  alLookup r.functions name

/-- GetEvaluator (registry.go:59-62). -/
def regGetEvaluator {Ctx : Type} (r : FunctionRegistry Ctx) (name : Str) :
    Option (TemplateEvaluator Ctx) :=
  alLookup r.evaluators name

/-- validateHandlerSignature (registry.go:106-159): a fixed-arity handler
must be a function of exactly maxArgs plus one parameters, the first a
context pointer (only checked when there is at least one parameter) and the
rest strings; a variadic handler must be a function of exactly a context
pointer and a string slice. -/
def validateHandlerSignature (handler : HandlerVal) (maxArgs : Option Int) :
    Option RegErr :=
  match handler with
  | .nonFunc => some .badSignature
  | .fn params =>
    match maxArgs with
    | some m =>
      if (params.length : Int) ≠ m + 1 then some .badSignature
      else if params.length > 0 ∧ params.get? 0 ≠ some .ctxPtr then
        some .badSignature
      else if (params.drop 1).any (fun p => p ≠ .stringT) then some .badSignature
      else none
    | none =>
      if params.length ≠ 2 then some .badSignature
      else if params.get? 0 ≠ some .ctxPtr then some .badSignature
      else if params.get? 1 ≠ some .stringSlice then some .badSignature
      else none

/-- Register (registry.go:65-97): validate minArgs, the arity bounds, name
uniqueness and the handler shape, in that order; on success store the
descriptor under its name. -/
def regRegister {Ctx : Type} (r : FunctionRegistry Ctx) (name : Str)
    (minArgs : Int) (maxArgs : Option Int)
    (validator : Option (Ctx → List Str → Option Str)) (handler : HandlerVal) :
    Except RegErr (FunctionRegistry Ctx) :=
  if minArgs < 0 then .error .negativeMinArgs
  else if (match maxArgs with
           | some m => decide (m < minArgs)
           | none => false) = true then
    .error .maxLtMin
  else if (alLookup r.functions name).isSome then .error .duplicate
  else
    match validateHandlerSignature handler maxArgs with
    | some e => .error e
    | none =>
      .ok { r with functions :=
        r.functions ++ [(name, ⟨name, minArgs, maxArgs, validator, handler⟩)] }

/-! ## Executor, callback path (src/template/executor.go) -/

/-- The expression-evaluation-time errors of the callback path
(executor.go:161-199), with the data their formatted messages carry. -/
inductive ExecErr : Type
  | invalidExpr (expr : Str)
  | unknownFunction (name : Str)
  | arityMin (name : Str) (min : Int) (got : Nat)
  | arityMax (name : Str) (max : Int) (got : Nat)
  | validation (name : Str) (inner : Str)
deriving DecidableEq, Repr

/-- Decimal rendering of a Nat, as fmt's percent-d verb produces. -/
def natToStr (n : Nat) : Str := (Nat.repr n).toList

/-- Decimal rendering of an Int, as fmt's percent-d verb produces. -/
def intToStr (i : Int) : Str := (Int.repr i).toList

/-- fmt's percent-q verb on the identifier names appearing here (word
characters only, so quoting adds only the surrounding double quotes). -/
def goQuote (name : Str) : Str := Char.ofNat 34 :: name ++ [Char.ofNat 34]

/-- The message of each callback-path error, following the fmt.Errorf
format strings of executor.go verbatim. -/
def ExecErr.message : ExecErr → Str
  | .invalidExpr expr => ("invalid template expression: ").toList ++ expr
  | .unknownFunction name => ("unknown function: ").toList ++ name
  | .arityMin name min got =>
      ("function ").toList ++ goQuote name ++ (" requires at least ").toList ++
      intToStr min ++ (" argument(s), got ").toList ++ natToStr got
  | .arityMax name max got =>
      ("function ").toList ++ goQuote name ++ (" accepts at most ").toList ++
      intToStr max ++ (" argument(s), got ").toList ++ natToStr got
  | .validation name inner =>
      ("validation failed for function ").toList ++ goQuote name ++
      (": ").toList ++ inner

/-- The closure returned by createCallbackFromHandler (executor.go:248-270):
it captures the handler value, the arity mode, the parsed arguments and the
execution context. -/
structure Callback (Ctx : Type) where
  handler : HandlerVal
  maxA : Option Int
  args : List Str
  ctx : Ctx

/-- A Go value passed to reflect.Value.Call. -/
inductive GoVal (Ctx : Type) : Type
  | ctxVal (c : Ctx)
  | strVal (s : Str)
  | sliceVal (l : List Str)

/-- The reflect type of a call argument. -/
def GoVal.ty {Ctx : Type} : GoVal Ctx → GoType
  | .ctxVal _ => .ctxPtr
  | .strVal _ => .stringT
  | .sliceVal _ => .stringSlice

/-- reflect.Value.Call, per its documented semantics: it panics when the
value is not a function, when the argument count differs from the
function's parameter count, or when an argument is not assignable to its
parameter type; otherwise the call proceeds. -/
def reflectCall {Ctx : Type} (handler : HandlerVal) (callArgs : List (GoVal Ctx)) :
    Except GoPanic Unit :=
  match handler with
  | .nonFunc => .error .reflectNotFunc
  | .fn params =>
    if callArgs.length ≠ params.length then .error .reflectArity
    else if callArgs.map GoVal.ty ≠ params then .error .reflectType
    else .ok ()

/-- Invoking the callback built by createCallbackFromHandler: the context
first, then for a fixed-arity action each argument individually, for a
variadic action the whole argument slice as one value (executor.go:252-269). -/
def invokeCallback {Ctx : Type} (cb : Callback Ctx) : Except GoPanic Unit :=
  let callArgs :=
    GoVal.ctxVal cb.ctx ::
      (match cb.maxA with
       | some _ => cb.args.map GoVal.strVal
       | none => [GoVal.sliceVal cb.args])
  reflectCall cb.handler callArgs

/-- createCallbackFromHandler (executor.go:248-270): always succeeds,
returning the closure. -/
def createCallbackFromHandler {Ctx : Type} (ctx : Ctx)
    (fn : TemplateFunction Ctx) (args : List Str) :
    Except ExecErr (Callback Ctx) :=
  .ok ⟨fn.handler, fn.maxA, args, ctx⟩

/-- The validator step of parseAndCreateCallback (executor.go:190-198),
reached only after both arity checks passed: a present validator that
reports an error aborts with a validation error wrapping its message;
otherwise the callback is built. -/
def validateAndCreate {Ctx : Type} (ctx : Ctx) (funcName : Str)
    (fn : TemplateFunction Ctx) (args : List Str) :
    Except ExecErr (Callback Ctx) :=
  match fn.validator with
  | some vd =>
    match vd ctx args with
    | some msg => .error (.validation funcName msg)
    | none => createCallbackFromHandler ctx fn args
  | none => createCallbackFromHandler ctx fn args

/-- parseAndCreateCallback (executor.go:161-199): extract the name, parse
the quoted arguments, look the action up, check the arity bounds, run the
validator if present, and build the callback. -/
def parseAndCreateCallback {Ctx : Type} (r : FunctionRegistry Ctx) (ctx : Ctx)
    (expr : Str) : Except ExecErr (Callback Ctx) :=
  match nameMatch expr with
  | none => .error (.invalidExpr expr)
  | some (funcName, rest0) =>
    let argsStr := trimSpace rest0
    let args := parseArguments argsStr
    match regGet r funcName with
    | none => .error (.unknownFunction funcName)
    | some fn =>
      if (args.length : Int) < fn.minA then
        .error (.arityMin funcName fn.minA args.length)
      else
        match fn.maxA with
        | some m =>
          if (args.length : Int) > m then
            .error (.arityMax funcName m args.length)
          else validateAndCreate ctx funcName fn args
        | none => validateAndCreate ctx funcName fn args

/-- ExecuteCallback (executor.go:141-158): the empty string yields a no-op
callback; otherwise strip one leading open marker and one trailing close
marker and parse the remainder. The no-op callback is embedded as one whose
invocation dispatches to nothing. -/
def executeCallback {Ctx : Type} (r : FunctionRegistry Ctx) (ctx : Ctx)
    (templateStr : Str) : Except ExecErr (Option (Callback Ctx)) :=
  if templateStr = [] then .ok none
  else
    let t1 := trimSpace templateStr
    let t2 := if listPrefix openMarker t1 then t1.drop 2 else t1
    let t3 :=
      if listPrefix (closeMarker.reverse) t2.reverse then
        (t2.reverse.drop 2).reverse
      else t2
    (parseAndCreateCallback r ctx (trimSpace t3)).map some

/-! ## Executor, evaluator path (src/template/executor.go) -/

/-- The expression-evaluation-time errors of the evaluator path
(executor.go:49-73). -/
inductive EvalErr : Type
  | unknownEvaluator (name : Str)
  | arity (name : Str) (min max : Int) (got : Nat)
deriving DecidableEq, Repr

/-- The evaluator name an error complains about. -/
def EvalErr.evalName : EvalErr → Str
  | .unknownEvaluator name => name
  | .arity name _ _ _ => name

/-- The message of each evaluator-path error, following the fmt.Errorf
format strings of executor.go verbatim. -/
def EvalErr.message : EvalErr → Str
  | .unknownEvaluator name => ("unknown evaluator: ").toList ++ name
  | .arity name min max got =>
      ("evaluator ").toList ++ goQuote name ++ (" expects ").toList ++
      intToStr min ++ ("-").toList ++ intToStr max ++ (" args, got ").toList ++
      natToStr got

/-- One expression span of evaluateTemplateString (executor.go:61-70): trim,
parse the evaluator call, look it up, check the arity window, and run the
handler. Returns the rendered text or the error. -/
def evalSpan {Ctx : Type} (r : FunctionRegistry Ctx) (ctx : Ctx) (part : Str) :
    Except EvalErr Str :=
  match regGetEvaluator r (parseEvaluatorExpr (trimSpace part)).1 with
  | none => .error (.unknownEvaluator (parseEvaluatorExpr (trimSpace part)).1)
  | some ev =>
    if ((parseEvaluatorExpr (trimSpace part)).2.length : Int) < ev.minA ∨
        ((parseEvaluatorExpr (trimSpace part)).2.length : Int) > ev.maxA then
      .error (.arity (parseEvaluatorExpr (trimSpace part)).1 ev.minA ev.maxA
        (parseEvaluatorExpr (trimSpace part)).2.length)
    else .ok (ev.handler ctx (parseEvaluatorExpr (trimSpace part)).2)

/-- The loop of evaluateTemplateString (executor.go:56-71) over the parts,
with the parity flag saying whether the head is an expression span (odd
position). Any error makes the whole call return the empty string and that
error, exactly as the early return in the Go loop does. -/
def evalParts {Ctx : Type} (r : FunctionRegistry Ctx) (ctx : Ctx) :
    List Str → Bool → Str × Option EvalErr
  | [], _ => ([], none)
  | part :: rest, isExpr =>
    let hd : Except EvalErr Str :=
      if isExpr then evalSpan r ctx part else .ok part
    match hd with
    | .error e => ([], some e)
    | .ok h =>
      match evalParts r ctx rest (!isExpr) with
      | (out, none) => (h ++ out, none)
      | (_, some e) => ([], some e)

/-- evaluateTemplateString (executor.go:49-73). -/
def evaluateTemplateString {Ctx : Type} (r : FunctionRegistry Ctx) (ctx : Ctx)
    (s : Str) : Str × Option EvalErr :=
  evalParts r ctx (splitTemplateString s) false

/-- EvaluateToString (executor.go:26-31): the empty template renders to the
empty string with no error. -/
def evaluateToString {Ctx : Type} (r : FunctionRegistry Ctx) (ctx : Ctx)
    (s : Str) : Str × Option EvalErr :=
  if s = [] then ([], none) else evaluateTemplateString r ctx s

/-! ## Key parsing and the key-binding matcher
(src/unnamed/part_013 keys.ParseKey, src/template/keybinding.go)

tcell key codes are embedded as integers with the tcell v2 constant values;
only their distinctness and the identity of KeyRune matter below. Runes are
embedded as code points (Nat). Modifier masks are embedded as Nat bit
masks with the tcell v2 values. -/

/-- tcell.KeyRune. -/
def keyRune : Int := 256

/-- tcell.ModShift. -/
def modShift : Nat := 1

/-- tcell.ModCtrl. -/
def modCtrl : Nat := 2

/-- tcell.ModAlt. -/
def modAlt : Nat := 4

/-- tcell.ModMeta. -/
def modMeta : Nat := 8

/-- The special-key table of ParseKey (part_013:46-57), with the tcell v2
numeric values: Escape 27, Enter 13, Tab 9, Backtab 278, Backspace 8,
Delete 271, Insert 270, Up 257, Down 258, Right 259, Left 260, Home 268,
End 269, PgUp 266, PgDn 267. -/
def specialKeys : List (Str × Int) :=
  [(("escape").toList, 27), (("esc").toList, 27),
   (("enter").toList, 13), (("return").toList, 13),
   (("tab").toList, 9), (("backtab").toList, 278),
   (("backspace").toList, 8), (("bs").toList, 8),
   (("delete").toList, 271), (("del").toList, 271),
   (("insert").toList, 270), (("ins").toList, 270),
   (("up").toList, 257), (("down").toList, 258),
   (("left").toList, 260), (("right").toList, 259),
   (("home").toList, 268), (("end").toList, 269),
   (("pgup").toList, 266), (("pageup").toList, 266),
   (("pgdn").toList, 267), (("pagedown").toList, 267)]

/-- Lookup in the special-key table. -/
def specialLookup : List (Str × Int) → Str → Option Int
  | [], _ => none
  | (k, v) :: rest, s => if k = s then some v else specialLookup rest s

/-- strings.ToLower on the ASCII range (the modifier and key names compared
against are ASCII). -/
def toLowerChar (c : Char) : Char :=
  if 'A' ≤ c && c ≤ 'Z' then Char.ofNat (c.toNat + 32) else c

/-- unicode.ToLower on a rune code point, ASCII fragment. -/
def toLowerRune (n : Nat) : Nat :=
  if 65 ≤ n ∧ n ≤ 90 then n + 32 else n

/-- unicode.ToUpper on a rune code point, ASCII fragment. -/
def toUpperRune (n : Nat) : Nat :=
  if 97 ≤ n ∧ n ≤ 122 then n - 32 else n

/-- Lowercase a string. -/
def toLowerStr (s : Str) : Str := s.map toLowerChar

/-- strings.Split on the plus separator: the chunks between plus signs. -/
def splitOnPlus : Str → List Str
  | [] => [[]]
  | c :: rest =>
    let r := splitOnPlus rest
    if c = '+' then [] :: r
    else
      match r with
      | w :: ws => (c :: w) :: ws
      | [] => [[c]]

/-- The modifier loop of ParseKey (part_013:24-39): all but the last chunk
must name a modifier; unknown names fail the parse. -/
def parseMods : List Str → Nat → Option Nat
  | [], acc => some acc
  | p :: rest, acc =>
    let m := toLowerStr (trimSpace p)
    if m = ("ctrl").toList ∨ m = ("control").toList then
      parseMods rest (acc ||| modCtrl)
    else if m = ("alt").toList then parseMods rest (acc ||| modAlt)
    else if m = ("meta").toList then parseMods rest (acc ||| modMeta)
    else if m = ("shift").toList then parseMods rest (acc ||| modShift)
    else none

/-- fmt.Sscanf of a decimal integer (the percent-d verb): an optional sign
then at least one digit; trailing characters are ignored, as Sscanf does
not require the input to be exhausted. -/
def goScanInt (s : Str) : Option Int :=
  let scan : Str → Option Nat := fun t =>
    let digits := t.takeWhile (fun c => '0' ≤ c && c ≤ '9')
    if digits = [] then none
    else some (digits.foldl (fun acc c => acc * 10 + (c.toNat - 48)) 0)
  match s with
  | '-' :: rest => (scan rest).map (fun n => -(n : Int))
  | '+' :: rest => (scan rest).map (fun n => (n : Int))
  | _ => (scan s).map (fun n => (n : Int))

/-- ParseKey (part_013:15-86): parse a key description into a tcell key
code, a modifier mask and an optional rune. The function-key branch tries
Sscanf with an uppercase then a lowercase F; since the branch is guarded by
the key part starting with f or F, this amounts to scanning an integer
after the first character. -/
def parseKey (keyStr : Str) : Except Unit (Int × Nat × Nat) :=
  let ks := trimSpace keyStr
  if ks = [] then .error ()
  else
    let parts := splitOnPlus ks
    match parseMods (parts.dropLast) 0 with
    | none => .error ()
    | some modMask =>
      let keyPart := trimSpace (parts.getLastD [])
      let keyLower := toLowerStr keyPart
      match specialLookup specialKeys keyLower with
      | some k => .ok (k, modMask, 0)
      | none =>
        if keyLower = ("space").toList then .ok (keyRune, modMask, 32)
        else
          let fRes : Option Int :=
            if keyLower.head? = some 'f' ∧ keyPart.length > 1 then
              goScanInt (keyPart.drop 1)
            else none
          match fRes with
          | some fNum =>
            if 1 ≤ fNum ∧ fNum ≤ 12 then .ok (279 + (fNum - 1), modMask, 0)
            else
              match keyPart with
              | [c] => .ok (keyRune, modMask, c.toNat)
              | _ => .error ()
          | none =>
            match keyPart with
            | [c] => .ok (keyRune, modMask, c.toNat)
            | _ => .error ()

/-- A tcell key event as the matcher observes it: the values of Key(),
Rune() and Modifiers(). -/
structure EventKey where
  key : Int
  ch : Nat
  mod : Nat
deriving DecidableEq, Repr

/-- MatchesKeyBinding (keybinding.go:13-51): parse the binding description;
require the tracked modifier bits to agree; for a rune binding with Ctrl
requested accept the ASCII control-code alias of the letter as well as the
letter itself (and for an uppercase letter also its lowercase form); for a
rune binding without Ctrl compare case-insensitively; for a non-rune
binding compare the key codes. -/
def matchesKeyBinding (event : EventKey) (bindingKey : Str) : Bool :=
  match parseKey bindingKey with
  | .error _ => false
  | .ok (key, mod, ch) =>
    if key = keyRune && ch = 0 then false
    else
      let trackedMask := modCtrl ||| modAlt ||| modShift ||| modMeta
      let wantMod := mod &&& trackedMask
      let gotMod := event.mod &&& trackedMask
      if wantMod ≠ gotMod then false
      else if key = keyRune then
        if event.key ≠ keyRune then false
        else if mod &&& modCtrl ≠ 0 && 97 ≤ ch && ch ≤ 122 then
          let ctrlRune := ch - 97 + 1
          event.ch = ctrlRune || event.ch = ch
        else if mod &&& modCtrl ≠ 0 && 65 ≤ ch && ch ≤ 90 then
          let ctrlRune := ch - 65 + 1
          event.ch = ctrlRune || event.ch = ch || event.ch = toLowerRune ch
        else
          event.ch = ch || event.ch = toLowerRune ch || event.ch = toUpperRune ch
      else decide (event.key = key)

/-! ## Spec-side and claim-side reference definitions

These definitions follow the wording of spec.md, for comparison against
the embeddings above; they are not translations of the Go source. -/

/-- Follows the spec's words for callback-path argument parsing (spec.md
section 4.2): only double-quoted substrings are captured as arguments, a
backslash escapes the character that follows it, and any unquoted token
outside quotes contributes zero arguments. Concretely: outside a quoted
region every character, escaped or not, is discarded; a double quote opens
a region with an empty buffer; inside a region a backslash escapes the next
character into the buffer and an unescaped double quote emits the buffer. -/
def parseArgsSpecLoop : Str → Str → Bool → Bool → List Str
  | [], _, _, _ => []
  | ch :: rest, current, inQuote, escaped =>
    if escaped then
      if inQuote then parseArgsSpecLoop rest (current ++ [ch]) inQuote false
      else parseArgsSpecLoop rest current inQuote false
    else if ch = '\\' then parseArgsSpecLoop rest current inQuote true
    else if ch = Char.ofNat 34 then
      if inQuote then current :: parseArgsSpecLoop rest [] false false
      else parseArgsSpecLoop rest [] true false
    else if inQuote then parseArgsSpecLoop rest (current ++ [ch]) inQuote false
    else parseArgsSpecLoop rest current inQuote false

/-- The spec-side callback-path argument parser (see parseArgsSpecLoop). -/
def parseArgumentsSpec (s : Str) : List Str :=
  parseArgsSpecLoop s [] false false

/-- The scanning state of the amended description of parseArguments: the
arguments emitted so far (reversed), the pending buffer, the in-quote flag
and the escape flag. -/
structure ScanState where
  emitted : List Str
  buf : Str
  inQ : Bool
  esc : Bool

/-- One character of the amended description of callback-path argument
parsing: a backslash escapes the character that follows it and the escaped
character is buffered whether or not a quote is open; an unescaped double
quote toggles the quote without clearing the buffer and emits the buffer
when it closes a region; unescaped characters are buffered only inside a
region. -/
def scanStep (st : ScanState) (ch : Char) : ScanState :=
  if st.esc then { st with buf := st.buf ++ [ch], esc := false }
  else if ch = '\\' then { st with esc := true }
  else if ch = Char.ofNat 34 then
    if st.inQ then { st with emitted := st.buf :: st.emitted, buf := [], inQ := false }
    else { st with inQ := true }
  else if st.inQ then { st with buf := st.buf ++ [ch] }
  else st

/-- The amended spec-side description of parseArguments, as a single fold
of scanStep over the payload (the empty payload yields no arguments). -/
def parseArgumentsAmended (s : Str) : List Str :=
  (s.foldl scanStep ⟨[], [], false, false⟩).emitted.reverse

/-- The claim's shape requirement on a fixed-arity handler: a function of
exactly a context pointer followed by maxArgs string parameters. -/
def fixedShapeOK (h : HandlerVal) (m : Int) : Prop :=
  h = HandlerVal.fn (GoType.ctxPtr :: List.replicate m.toNat GoType.stringT)

/-- The claim's shape requirement on a variadic handler: a function of
exactly a context pointer followed by a string slice. -/
def variadicShapeOK (h : HandlerVal) : Prop :=
  h = HandlerVal.fn [GoType.ctxPtr, GoType.stringSlice]

/-- The arity/lookup check that evalSpan performs on one expression span,
separated from the handler invocation so that the first failing span can be
named independently of handler results. -/
def spanCheck {Ctx : Type} (r : FunctionRegistry Ctx) (part : Str) :
    Option EvalErr :=
  match regGetEvaluator r (parseEvaluatorExpr (trimSpace part)).1 with
  | none => some (.unknownEvaluator (parseEvaluatorExpr (trimSpace part)).1)
  | some ev =>
    if ((parseEvaluatorExpr (trimSpace part)).2.length : Int) < ev.minA ∨
        ((parseEvaluatorExpr (trimSpace part)).2.length : Int) > ev.maxA then
      some (.arity (parseEvaluatorExpr (trimSpace part)).1 ev.minA ev.maxA
        (parseEvaluatorExpr (trimSpace part)).2.length)
    else none

/-- The first error among the expression spans of a part list, scanning
with the same parity convention as the evaluation loop; literal parts and
handler outputs cannot contribute. -/
def firstSpanError {Ctx : Type} (r : FunctionRegistry Ctx) :
    List Str → Bool → Option EvalErr
  | [], _ => none
  | part :: rest, isExpr =>
    if isExpr then
      match spanCheck r part with
      | some e => some e
      | none => firstSpanError r rest (!isExpr)
    else firstSpanError r rest (!isExpr)

/-- Two direct writes to the same key with no reconciliation between them. -/
def afterTwoSets {α : Type} (c : Context α) (k : Str) (v1 v2 : α) : Context α :=
  setStateDirect (setStateDirect c k v1) k v2

/-- A one-key, one-view, one-subscriber context exercising C1. -/
def c1ExampleRefresh : AList Nat → Except GoPanic Str := fun st =>
  .ok (match alLookup st [Char.ofNat 107] with
       | some n => natToStr n
       | none => [])

/-- The example context for the C1 witness: one view and one subscriber
registered for the key and nothing dirty yet. -/
def c1ExampleCtx : Context Nat :=
  { state := []
    dirtyKeys := []
    boundViews := [([Char.ofNat 107], [⟨some c1ExampleRefresh, some (fun _ => none)⟩])]
    subscribers := [([Char.ofNat 107], [fun _ => none])] }

/-- The key of the C3 example context. -/
def c3Key : Str := [Char.ofNat 107]

/-- A Refresh that panics. -/
def c3FailRefresh : AList Nat → Except GoPanic Str :=
  fun _ => .error (.user (("boom").toList))

/-- A Refresh that succeeds with a constant text. -/
def c3OkRefresh : AList Nat → Except GoPanic Str :=
  fun _ => .ok (("T").toList)

/-- A bound view whose Refresh panics. -/
def c3FailView : BoundView Nat := ⟨some c3FailRefresh, some (fun _ => none)⟩

/-- A healthy bound view. -/
def c3OkView : BoundView Nat := ⟨some c3OkRefresh, some (fun _ => none)⟩

/-- A context with one dirty key carrying a failing view, then a healthy
view, then a subscriber. -/
def c3Ctx : Context Nat :=
  { state := [(c3Key, 5)]
    dirtyKeys := [c3Key]
    boundViews := [(c3Key, [c3FailView, c3OkView])]
    subscribers := [(c3Key, [fun _ => none])] }

/-- The claim's registration-failure conditions: duplicate name in the
actions namespace, finite maxArgs below minArgs, or a handler whose shape
does not match the arity mode. -/
def registerErrCond {Ctx : Type} (r : FunctionRegistry Ctx) (name : Str)
    (minArgs : Int) (maxArgs : Option Int) (handler : HandlerVal) : Prop :=
  (regGet r name).isSome = true ∨
  (∃ m, maxArgs = some m ∧ m < minArgs) ∨
  (∃ m, maxArgs = some m ∧ ¬ fixedShapeOK handler m) ∨
  (maxArgs = none ∧ ¬ variadicShapeOK handler)

/-- The registered name used by the C4 witness. -/
def c4Name : Str := ("foo").toList

/-- The handler used by the C4 witness: a context pointer and one string. -/
def c4Handler : HandlerVal := .fn [GoType.ctxPtr, GoType.stringT]

/-- The action registry used by the C5 witness: one two-argument action. -/
def c5Reg : FunctionRegistry Unit :=
  { functions := [(("act").toList,
      ⟨("act").toList, 2, some 2, none,
        .fn [GoType.ctxPtr, GoType.stringT, GoType.stringT]⟩)]
    evaluators := [] }

/-- The registry used by the C9 witness: an action with minArgs one and
maxArgs two whose handler, as registration requires, declares the context
and two strings. -/
def c9Reg : FunctionRegistry Unit :=
  { functions := [(("act2").toList,
      ⟨("act2").toList, 1, some 2, none,
        .fn [GoType.ctxPtr, GoType.stringT, GoType.stringT]⟩)]
    evaluators := [] }

/-! ## Theorems -/

theorem listPrefix_length {pat s : Str} (h : listPrefix pat s = true) :
    pat.length ≤ s.length := by
  induction pat generalizing s with
  | nil => simp
  | cons a as ih =>
    cases s with
    | nil => simp [listPrefix] at h
    | cons b bs =>
      simp only [listPrefix, Bool.and_eq_true] at h
      simpa using ih h.2

theorem findSub_bound {pat s : Str} {i : Nat} (h : findSub pat s = some i) :
    pat.length + i ≤ s.length := by
  induction s generalizing i with
  | nil =>
    simp only [findSub] at h
    split at h
    · rename_i hp
      cases h
      simpa using listPrefix_length hp
    · cases h
  | cons c rest ih =>
    simp only [findSub] at h
    split at h
    · rename_i hp
      cases h
      simpa using listPrefix_length hp
    · rcases Option.map_eq_some'.mp h with ⟨j, hj, rfl⟩
      have := ih hj
      simp only [List.length_cons]
      omega

theorem splitGo_fuel (fuel : Nat) :
    ∀ (s : Str), s.length < fuel → splitGo fuel s = splitGo (s.length + 1) s := by
  induction fuel using Nat.strong_induction_on with
  | _ fuel ih =>
    intro s hf
    match fuel, hf with
    | m + 1, hf =>
      simp only [splitGo]
      cases h1 : findSub openMarker s with
      | none => rfl
      | some start =>
        simp only
        cases h2 : findSub closeMarker (s.drop (start + 2)) with
        | none => rfl
        | some e =>
          simp only [List.cons.injEq, true_and]
          have hb1 := findSub_bound h1
          have hb2 := findSub_bound h2
          simp only [openMarker, closeMarker, List.length_cons, List.length_nil,
            List.length_drop] at hb1 hb2
          have hlen1 : ((s.drop (start + 2)).drop (e + 2)).length < m := by
            simp only [List.length_drop]; omega
          have hlen2 : ((s.drop (start + 2)).drop (e + 2)).length < s.length := by
            simp only [List.length_drop]; omega
          rw [ih m (Nat.lt_succ_self m) _ hlen1,
            ih s.length (Nat.lt_of_lt_of_le hf (Nat.le_refl _)) _ hlen2]

/-- splitTemplateString on a string whose first open marker is never
closed: the result is the literal prefix followed by the open marker plus
the tail, exactly the unclosed branch of the Go loop. -/
theorem splitTemplateString_unclosed {s : Str} {start : Nat}
    (h1 : findSub openMarker s = some start)
    (h2 : findSub closeMarker (s.drop (start + 2)) = none) :
    splitTemplateString s = [s.take start, openMarker ++ s.drop (start + 2)] := by
  simp only [splitTemplateString, splitGo, h1, h2]

/-- splitTemplateString when the first open marker is closed: the literal
prefix, the expression content, then the split of the remainder — the
recursive step of the Go loop. -/
theorem splitTemplateString_closed {s : Str} {start e : Nat}
    (h1 : findSub openMarker s = some start)
    (h2 : findSub closeMarker (s.drop (start + 2)) = some e) :
    splitTemplateString s =
      s.take start :: (s.drop (start + 2)).take e ::
        splitTemplateString ((s.drop (start + 2)).drop (e + 2)) := by
  have hb1 := findSub_bound h1
  have hb2 := findSub_bound h2
  simp only [openMarker, closeMarker, List.length_cons, List.length_nil,
    List.length_drop] at hb1 hb2
  simp only [splitTemplateString, splitGo, h1, h2, List.cons.injEq, true_and]
  exact splitGo_fuel s.length _ (by simp only [List.length_drop]; omega)

/-- splitTemplateString on a string with no open marker: one literal part. -/
theorem splitTemplateString_noOpen {s : Str}
    (h1 : findSub openMarker s = none) : splitTemplateString s = [s] := by
  simp only [splitTemplateString, splitGo, h1]

/-! ## Lemmas about the store and the reconciliation pass -/

theorem alLookup_alInsert_self {α : Type} (st : AList α) (k : Str) (v : α) :
    alLookup (alInsert st k v) k = some v := by
  induction st with
  | nil => simp [alInsert, alLookup]
  | cons p rest ih =>
    by_cases h : p.1 = k
    · simp [alInsert, alLookup, h]
    · simp [alInsert, alLookup, h, ih]

theorem dirtyAdd_nodup {l : List Str} {k : Str} (h : l.Nodup) :
    (dirtyAdd l k).Nodup := by
  unfold dirtyAdd
  split
  · exact h
  · rename_i hk
    rw [List.nodup_append]
    refine ⟨h, List.nodup_singleton k, ?_⟩
    intro a ha hb
    rw [List.mem_singleton] at hb
    exact hk (hb ▸ ha)

theorem mem_dirtyAdd (l : List Str) (k : Str) : k ∈ dirtyAdd l k := by
  unfold dirtyAdd
  split
  · assumption
  · simp

theorem not_mem_of_nodup_cons {l : List Str} {k : Str}
    (hn : (k :: l).Nodup) : k ∉ l := by
  rw [List.nodup_cons] at hn
  exact hn.1

theorem viewEvents_mem {α : Type} {st : AList α} {k : Str} :
    ∀ (vs : List (BoundView α)) (i : Nat) (e : REvent α),
      e ∈ (viewEvents st k vs i).1 →
      e.key = k ∧ e.isSub = false ∧ i ≤ e.idx := by
  intro vs
  induction vs with
  | nil => intro i e h; simp [viewEvents] at h
  | cons bv rest ih =>
    intro i e h
    cases hr : bv.refresh with
    | none =>
      simp only [viewEvents, hr] at h
      obtain ⟨h1, h2, h3⟩ := ih (i + 1) e h
      exact ⟨h1, h2, by omega⟩
    | some f =>
      cases hs : bv.setText with
      | none =>
        simp only [viewEvents, hr, hs] at h
        obtain ⟨h1, h2, h3⟩ := ih (i + 1) e h
        exact ⟨h1, h2, by omega⟩
      | some g =>
        simp only [viewEvents, hr, hs] at h
        cases hfst : f st with
        | error p =>
          simp only [hfst, List.mem_cons, List.not_mem_nil, or_false] at h
          subst h
          exact ⟨rfl, rfl, le_refl _⟩
        | ok s =>
          simp only [hfst] at h
          cases hgs : g s with
          | some p =>
            simp only [hgs, List.mem_cons, List.not_mem_nil, or_false] at h
            rcases h with h | h
            · subst h; exact ⟨rfl, rfl, le_refl _⟩
            · subst h; exact ⟨rfl, rfl, le_refl _⟩
          | none =>
            simp only [hgs, List.mem_cons] at h
            rcases h with h | h | h
            · subst h; exact ⟨rfl, rfl, le_refl _⟩
            · subst h; exact ⟨rfl, rfl, le_refl _⟩
            · obtain ⟨h1, h2, h3⟩ := ih (i + 1) e h
              exact ⟨h1, h2, by omega⟩

theorem subEvents_mem {α : Type} {st : AList α} {k : Str} :
    ∀ (subs : List (α → Option GoPanic)) (i : Nat) (e : REvent α),
      e ∈ (subEvents st k subs i).1 → e.key = k ∧ e.isSub = true := by
  intro subs
  induction subs with
  | nil => intro i e h; simp [subEvents] at h
  | cons fn rest ih =>
    intro i e h
    cases hl : alLookup st k with
    | none =>
      simp only [subEvents, hl] at h
      exact ih (i + 1) e h
    | some v =>
      simp only [subEvents, hl] at h
      cases hf : fn v with
      | some p =>
        simp only [hf, List.mem_cons, List.not_mem_nil, or_false] at h
        subst h
        exact ⟨rfl, rfl⟩
      | none =>
        simp only [hf, List.mem_cons] at h
        rcases h with h | h
        · subst h; exact ⟨rfl, rfl⟩
        · exact ih (i + 1) e h

theorem count_zero_of_idx_lt {α : Type} [DecidableEq α] {st : AList α}
    {k : Str} {vs : List (BoundView α)} {i : Nat} {ev : REvent α}
    (h : ev.idx < i) : (viewEvents st k vs i).1.count ev = 0 := by
  rw [List.count_eq_zero]
  intro hmem
  have := (viewEvents_mem vs i ev hmem).2.2
  omega

theorem viewEvents_count {α : Type} [DecidableEq α] {st : AList α} {k : Str} :
    ∀ (vs : List (BoundView α)) (i j : Nat) (bv : BoundView α)
      (f : AList α → Except GoPanic Str) (g : Str → Option GoPanic),
      (viewEvents st k vs i).2 = none →
      vs.get? j = some bv → bv.refresh = some f → bv.setText = some g →
      ∃ s, f st = .ok s ∧
        (viewEvents st k vs i).1.count (REvent.refreshCalled k (i + j)) = 1 ∧
        (viewEvents st k vs i).1.count (REvent.setTextCalled k (i + j) s) = 1 := by
  intro vs
  induction vs with
  | nil => intro i j bv f g hout hj; simp [List.get?] at hj
  | cons bv0 rest ih =>
    intro i j bv f g hout hj hf hg
    cases j with
    | zero =>
      simp only [List.get?] at hj
      cases hj
      simp only [viewEvents, hf, hg] at hout ⊢
      cases hfst : f st with
      | error p => simp [hfst] at hout
      | ok s =>
        simp only [hfst] at hout ⊢
        cases hgs : g s with
        | some p => simp [hgs] at hout
        | none =>
          simp only [hgs] at hout ⊢
          refine ⟨s, rfl, ?_, ?_⟩
          · rw [Nat.add_zero]
            rw [List.count_cons, List.count_cons,
              count_zero_of_idx_lt (by simp [REvent.idx])]
            simp
          · rw [Nat.add_zero]
            rw [List.count_cons, List.count_cons,
              count_zero_of_idx_lt (by simp [REvent.idx])]
            simp
    | succ j' =>
      have hj' : rest.get? j' = some bv := by simpa [List.get?] using hj
      cases hr0 : bv0.refresh with
      | none =>
        simp only [viewEvents, hr0] at hout ⊢
        obtain ⟨s, hs1, hc1, hc2⟩ := ih (i + 1) j' bv f g hout hj' hf hg
        refine ⟨s, hs1, ?_, ?_⟩
        · rw [show i + (j' + 1) = (i + 1) + j' by omega]; exact hc1
        · rw [show i + (j' + 1) = (i + 1) + j' by omega]; exact hc2
      | some f0 =>
        cases hs0 : bv0.setText with
        | none =>
          simp only [viewEvents, hr0, hs0] at hout ⊢
          obtain ⟨s, hs1, hc1, hc2⟩ := ih (i + 1) j' bv f g hout hj' hf hg
          refine ⟨s, hs1, ?_, ?_⟩
          · rw [show i + (j' + 1) = (i + 1) + j' by omega]; exact hc1
          · rw [show i + (j' + 1) = (i + 1) + j' by omega]; exact hc2
        | some g0 =>
          simp only [viewEvents, hr0, hs0] at hout ⊢
          cases hfst : f0 st with
          | error p => simp [hfst] at hout
          | ok s0 =>
            simp only [hfst] at hout ⊢
            cases hgs : g0 s0 with
            | some p => simp [hgs] at hout
            | none =>
              simp only [hgs] at hout ⊢
              obtain ⟨s, hs1, hc1, hc2⟩ := ih (i + 1) j' bv f g hout hj' hf hg
              have hne : i ≠ i + (j' + 1) := by omega
              refine ⟨s, hs1, ?_, ?_⟩
              · rw [List.count_cons, List.count_cons,
                  show i + (j' + 1) = (i + 1) + j' by omega, hc1]
                simp [hne, show ¬ i + (j' + 1) = i by omega,
                  show (i + 1) + j' = i + (j' + 1) by omega]
              · rw [List.count_cons, List.count_cons,
                  show i + (j' + 1) = (i + 1) + j' by omega, hc2]
                simp [show ¬ i + (j' + 1) = i by omega,
                  show (i + 1) + j' = i + (j' + 1) by omega]

theorem passKeys_cons_none {α : Type} {st : AList α}
    {bvs : AList (List (BoundView α))} {subs : AList (List (α → Option GoPanic))}
    {k' : Str} {rest : List Str}
    (h : (passKeys st bvs subs (k' :: rest)).2 = none) :
    (viewEvents st k' ((alLookup bvs k').getD []) 0).2 = none ∧
    (subEvents st k' ((alLookup subs k').getD []) 0).2 = none ∧
    (passKeys st bvs subs rest).2 = none ∧
    (passKeys st bvs subs (k' :: rest)).1 =
      (viewEvents st k' ((alLookup bvs k').getD []) 0).1 ++
      (subEvents st k' ((alLookup subs k').getD []) 0).1 ++
      (passKeys st bvs subs rest).1 := by
  cases h1 : (viewEvents st k' ((alLookup bvs k').getD []) 0).2 with
  | some p => simp [passKeys, h1] at h
  | none =>
    cases h2 : (subEvents st k' ((alLookup subs k').getD []) 0).2 with
    | some p => simp [passKeys, h1, h2] at h
    | none =>
      simp only [passKeys, h1, h2] at h ⊢
      exact ⟨trivial, trivial, h, trivial⟩

theorem passKeys_mem_key {α : Type} {st : AList α}
    {bvs : AList (List (BoundView α))} {subs : AList (List (α → Option GoPanic))} :
    ∀ (keys : List Str) (e : REvent α),
      e ∈ (passKeys st bvs subs keys).1 → e.key ∈ keys := by
  intro keys
  induction keys with
  | nil => intro e h; simp [passKeys] at h
  | cons k' rest ih =>
    intro e h
    cases h1 : (viewEvents st k' ((alLookup bvs k').getD []) 0).2 with
    | some p =>
      simp only [passKeys, h1] at h
      rw [(viewEvents_mem _ 0 e h).1]
      exact List.mem_cons_self _ _
    | none =>
      cases h2 : (subEvents st k' ((alLookup subs k').getD []) 0).2 with
      | some p =>
        simp only [passKeys, h1, h2, List.mem_append] at h
        rcases h with h | h
        · rw [(viewEvents_mem _ 0 e h).1]; exact List.mem_cons_self _ _
        · rw [(subEvents_mem _ 0 e h).1]; exact List.mem_cons_self _ _
      | none =>
        simp only [passKeys, h1, h2, List.mem_append] at h
        rcases h with (h | h) | h
        · rw [(viewEvents_mem _ 0 e h).1]; exact List.mem_cons_self _ _
        · rw [(subEvents_mem _ 0 e h).1]; exact List.mem_cons_self _ _
        · exact List.mem_cons_of_mem _ (ih e h)

theorem passKeys_none_of_mem {α : Type} {st : AList α}
    {bvs : AList (List (BoundView α))} {subs : AList (List (α → Option GoPanic))} :
    ∀ (keys : List Str) (k : Str),
      (passKeys st bvs subs keys).2 = none → k ∈ keys →
      (viewEvents st k ((alLookup bvs k).getD []) 0).2 = none := by
  intro keys
  induction keys with
  | nil => intro k _ hm; simp at hm
  | cons k' rest ih =>
    intro k hout hm
    obtain ⟨h1, _, h3, _⟩ := passKeys_cons_none hout
    rcases List.mem_cons.mp hm with rfl | hm'
    · exact h1
    · exact ih k h3 hm'

theorem passKeys_count {α : Type} [DecidableEq α] {st : AList α}
    {bvs : AList (List (BoundView α))} {subs : AList (List (α → Option GoPanic))} :
    ∀ (keys : List Str) (k : Str) (ev : REvent α),
      (passKeys st bvs subs keys).2 = none → keys.Nodup → k ∈ keys →
      ev.key = k → ev.isSub = false →
      (passKeys st bvs subs keys).1.count ev =
        (viewEvents st k ((alLookup bvs k).getD []) 0).1.count ev := by
  intro keys
  induction keys with
  | nil => intro k ev _ _ hm; simp at hm
  | cons k' rest ih =>
    intro k ev hout hnd hm hkey hsub
    obtain ⟨h1, h2, h3, hev⟩ := passKeys_cons_none hout
    rw [hev, List.count_append, List.count_append]
    have hsubz : (subEvents st k' ((alLookup subs k').getD []) 0).1.count ev = 0 := by
      rw [List.count_eq_zero]
      intro hmem
      have := (subEvents_mem _ 0 ev hmem).2
      rw [hsub] at this
      exact Bool.false_ne_true this
    rcases List.mem_cons.mp hm with rfl | hm'
    · have hrestz : (passKeys st bvs subs rest).1.count ev = 0 := by
        rw [List.count_eq_zero]
        intro hmem
        have := passKeys_mem_key rest ev hmem
        rw [hkey] at this
        exact not_mem_of_nodup_cons hnd this
      rw [hsubz, hrestz]
      omega
    · have hne : k ≠ k' := by
        intro heq
        exact not_mem_of_nodup_cons hnd (heq ▸ hm')
      have hviewz : (viewEvents st k' ((alLookup bvs k').getD []) 0).1.count ev = 0 := by
        rw [List.count_eq_zero]
        intro hmem
        have := (viewEvents_mem _ 0 ev hmem).1
        rw [hkey] at this
        exact hne this
      rw [hsubz, hviewz,
        ih k ev h3 (List.Nodup.of_cons hnd) hm' hkey hsub]
      omega

/-- C1: after SetStateDirect(k, v1) then SetStateDirect(k, v2) with no
intervening reconciliation, one RefreshDirtyBoundViews pass (that completes
without a view panic) delivers to each bound view registered for k exactly
one Refresh call and exactly one SetText call, the applied text being the
view's Refresh evaluated on the state in which k holds v2; the pass leaves
the dirty set empty, so k is removed from it and is never delivered twice. -/
theorem setStateDirect_coalesces_per_pass {α : Type} [DecidableEq α]
    (c : Context α) (k : Str) (v1 v2 : α) (i : Nat) (bv : BoundView α)
    (f : AList α → Except GoPanic Str) (g : Str → Option GoPanic)
    (hnd : c.dirtyKeys.Nodup)
    (hbv : (viewsFor c k).get? i = some bv)
    (hf : bv.refresh = some f) (hg : bv.setText = some g)
    (hok : (refreshDirtyBoundViews (afterTwoSets c k v1 v2)).outcome = none) :
    alLookup (afterTwoSets c k v1 v2).state k = some v2 ∧
    (refreshDirtyBoundViews (afterTwoSets c k v1 v2)).events.count
      (REvent.refreshCalled k i) = 1 ∧
    (∃ s, f (afterTwoSets c k v1 v2).state = .ok s ∧
      (refreshDirtyBoundViews (afterTwoSets c k v1 v2)).events.count
        (REvent.setTextCalled k i s) = 1) ∧
    (refreshDirtyBoundViews (afterTwoSets c k v1 v2)).ctx.dirtyKeys = [] := by
  have hstate : alLookup (afterTwoSets c k v1 v2).state k = some v2 :=
    alLookup_alInsert_self _ _ _
  have hnd2 : (afterTwoSets c k v1 v2).dirtyKeys.Nodup :=
    dirtyAdd_nodup (dirtyAdd_nodup hnd)
  have hmem : k ∈ (afterTwoSets c k v1 v2).dirtyKeys := mem_dirtyAdd _ _
  have hout : (passKeys (afterTwoSets c k v1 v2).state
      (afterTwoSets c k v1 v2).boundViews (afterTwoSets c k v1 v2).subscribers
      (afterTwoSets c k v1 v2).dirtyKeys).2 = none := hok
  have hvnone := passKeys_none_of_mem
    (afterTwoSets c k v1 v2).dirtyKeys k hout hmem
  have hviews : ((alLookup (afterTwoSets c k v1 v2).boundViews k).getD []) =
      viewsFor c k := rfl
  rw [hviews] at hvnone
  obtain ⟨s, hs, hc1, hc2⟩ :=
    viewEvents_count (viewsFor c k) 0 i bv f g hvnone hbv hf hg
  rw [Nat.zero_add] at hc1 hc2
  have hp1 := passKeys_count
    (afterTwoSets c k v1 v2).dirtyKeys k (REvent.refreshCalled k i)
    hout hnd2 hmem rfl rfl
  have hp2 := passKeys_count
    (afterTwoSets c k v1 v2).dirtyKeys k (REvent.setTextCalled k i s)
    hout hnd2 hmem rfl rfl
  rw [hviews] at hp1 hp2
  refine ⟨hstate, ?_, ⟨s, hs, ?_⟩, rfl⟩
  · exact hp1.trans hc1
  · exact hp2.trans hc2

theorem setStateDirect_coalesces_witness :
    alLookup (afterTwoSets c1ExampleCtx [Char.ofNat 107] 1 2).state
      [Char.ofNat 107] = some 2 ∧
    (refreshDirtyBoundViews (afterTwoSets c1ExampleCtx [Char.ofNat 107] 1 2)).events.count
      (REvent.refreshCalled [Char.ofNat 107] 0) = 1 ∧
    (∃ s, c1ExampleRefresh (afterTwoSets c1ExampleCtx [Char.ofNat 107] 1 2).state = .ok s ∧
      (refreshDirtyBoundViews (afterTwoSets c1ExampleCtx [Char.ofNat 107] 1 2)).events.count
        (REvent.setTextCalled [Char.ofNat 107] 0 s) = 1) ∧
    (refreshDirtyBoundViews (afterTwoSets c1ExampleCtx [Char.ofNat 107] 1 2)).ctx.dirtyKeys = [] :=
  setStateDirect_coalesces_per_pass c1ExampleCtx [Char.ofNat 107] 1 2 0
    ⟨some c1ExampleRefresh, some (fun _ => none)⟩ c1ExampleRefresh
    (fun _ => none) (by simp [c1ExampleCtx]) rfl rfl rfl rfl

/-- C3 counterexample: RefreshDirtyBoundViews installs no recovery, so when
the first bound view's Refresh panics, the pass aborts: the trace contains
only that one Refresh call — the second bound view for the same key receives
neither Refresh nor SetText and the subscriber is never notified, refuting
the claim that a failure is swallowed for the single failing view while
every other bound view and subscriber still receives its update. -/
theorem refreshDirty_swallow_counterexample :
    (refreshDirtyBoundViews c3Ctx).events = [REvent.refreshCalled c3Key 0] ∧
    (refreshDirtyBoundViews c3Ctx).outcome = some (GoPanic.user (("boom").toList)) ∧
    (refreshDirtyBoundViews c3Ctx).events.count (REvent.refreshCalled c3Key 1) = 0 ∧
    (refreshDirtyBoundViews c3Ctx).events.count
      (REvent.setTextCalled c3Key 1 (("T").toList)) = 0 ∧
    (refreshDirtyBoundViews c3Ctx).events.count (REvent.subCalled c3Key 0 5) = 0 := by
  decide

/-- C3 amended: a panic in a bound view's Refresh is not swallowed: it
propagates out of RefreshDirtyBoundViews, aborting the pass at the failing
view, so no later view or subscriber receives an update in that pass; the
dirty keys, drained before any callback ran, are nonetheless cleared. Shown
here for a failing first view of the first dirty key. -/
theorem refreshDirty_panic_propagates {α : Type} (c : Context α) (k : Str)
    (restKeys : List Str) (bv : BoundView α) (restViews : List (BoundView α))
    (f : AList α → Except GoPanic Str) (g : Str → Option GoPanic) (p : GoPanic)
    (hdk : c.dirtyKeys = k :: restKeys)
    (hbv : viewsFor c k = bv :: restViews)
    (hf : bv.refresh = some f) (hg : bv.setText = some g)
    (hfail : f c.state = .error p) :
    (refreshDirtyBoundViews c).outcome = some p ∧
    (refreshDirtyBoundViews c).events = [REvent.refreshCalled k 0] ∧
    (refreshDirtyBoundViews c).ctx.dirtyKeys = [] := by
  have hviews : (alLookup c.boundViews k).getD [] = bv :: restViews := hbv
  simp only [refreshDirtyBoundViews, hdk, passKeys, hviews, viewEvents,
    hf, hg, hfail]
  exact ⟨trivial, trivial, trivial⟩

theorem refreshDirty_panic_witness :
    (refreshDirtyBoundViews c3Ctx).outcome = some (GoPanic.user (("boom").toList)) ∧
    (refreshDirtyBoundViews c3Ctx).events = [REvent.refreshCalled c3Key 0] ∧
    (refreshDirtyBoundViews c3Ctx).ctx.dirtyKeys = [] :=
  refreshDirty_panic_propagates c3Ctx c3Key [] c3FailView [c3OkView]
    c3FailRefresh (fun _ => none) (GoPanic.user (("boom").toList))
    rfl rfl rfl rfl rfl

/-- C2: for every lowercase letter c (code point cc), the binding whose key
description is Ctrl+ followed by c matches both a rune key event carrying c
with the Ctrl modifier set and a rune key event carrying the ASCII control
code c minus the code of a plus one with the Ctrl modifier set. Events are
embedded as the triple the matcher observes (Key(), Rune(), Modifiers()),
with Key() = KeyRune, the form this repository's own key-binding tests use
for both shapes. -/
theorem ctrlBinding_matches_letter_and_control {cc : Nat}
    (h1 : 97 ≤ cc) (h2 : cc ≤ 122) :
    matchesKeyBinding ⟨keyRune, cc, modCtrl⟩
      (("Ctrl+").toList ++ [Char.ofNat cc]) = true ∧
    matchesKeyBinding ⟨keyRune, cc - 97 + 1, modCtrl⟩
      (("Ctrl+").toList ++ [Char.ofNat cc]) = true := by
  interval_cases cc <;> exact ⟨by decide, by decide⟩

theorem ctrlBinding_matches_witness :
    matchesKeyBinding ⟨keyRune, 113, modCtrl⟩
      (("Ctrl+").toList ++ [Char.ofNat 113]) = true ∧
    matchesKeyBinding ⟨keyRune, 113 - 97 + 1, modCtrl⟩
      (("Ctrl+").toList ++ [Char.ofNat 113]) = true :=
  ctrlBinding_matches_letter_and_control (by decide) (by decide)

theorem validate_fixed_iff {handler : HandlerVal} {m : Int} (hm : 0 ≤ m) :
    validateHandlerSignature handler (some m) = none ↔ fixedShapeOK handler m := by
  cases handler with
  | nonFunc => simp [validateHandlerSignature, fixedShapeOK]
  | fn params =>
    simp only [validateHandlerSignature, fixedShapeOK, HandlerVal.fn.injEq]
    constructor
    · intro h
      by_cases h1 : (params.length : Int) ≠ m + 1
      · rw [if_pos h1] at h; exact absurd h (by simp)
      · rw [if_neg h1] at h
        push_neg at h1
        by_cases h2 : params.length > 0 ∧ params.get? 0 ≠ some GoType.ctxPtr
        · rw [if_pos h2] at h; exact absurd h (by simp)
        · rw [if_neg h2] at h
          by_cases h3 :
              ((params.drop 1).any fun p => decide (p ≠ GoType.stringT)) = true
          · rw [if_pos h3] at h; exact absurd h (by simp)
          · clear h
            have hlen : params.length = m.toNat + 1 := by omega
            cases params with
            | nil => simp at hlen
            | cons p0 tail =>
              have hp0 : p0 = GoType.ctxPtr := by
                rcases not_and_or.mp h2 with hc | hc
                · exact absurd (by simp) hc
                · have := not_not.mp hc
                  simpa [List.get?] using this
              have htail : tail = List.replicate m.toNat GoType.stringT := by
                rw [List.eq_replicate_iff]
                refine ⟨by simpa using hlen, ?_⟩
                intro b hb
                by_contra hbne
                exact h3 (by
                  simp only [List.drop_one, List.tail_cons, List.any_eq_true]
                  exact ⟨b, hb, by simpa using hbne⟩)
              rw [hp0, htail]
    · intro h
      subst h
      have hlen : ((GoType.ctxPtr :: List.replicate m.toNat GoType.stringT).length : Int) = m + 1 := by
        simp only [List.length_cons, List.length_replicate]
        omega
      rw [if_neg (by omega)]
      rw [if_neg (by
        intro hc
        exact hc.2 (by simp [List.get?]))]
      rw [if_neg (by
        intro hc
        rw [List.drop_one, List.tail_cons, List.any_eq_true] at hc
        obtain ⟨b, hb, hbe⟩ := hc
        rw [List.mem_replicate] at hb
        rw [hb.2] at hbe
        simp at hbe)]

theorem validate_variadic_iff {handler : HandlerVal} :
    validateHandlerSignature handler none = none ↔ variadicShapeOK handler := by
  cases handler with
  | nonFunc => simp [validateHandlerSignature, variadicShapeOK]
  | fn params =>
    simp only [validateHandlerSignature, variadicShapeOK, HandlerVal.fn.injEq]
    match params with
    | [] =>
      constructor
      · intro h
        rw [if_pos (by simp)] at h
        exact absurd h (by simp)
      · intro h
        exact absurd h (by simp)
    | [a] =>
      constructor
      · intro h
        rw [if_pos (by simp)] at h
        exact absurd h (by simp)
      · intro h
        exact absurd h (by simp)
    | [a, b] =>
      constructor
      · intro h
        rw [if_neg (by simp)] at h
        by_cases h2 : ([a, b].get? 0 ≠ some GoType.ctxPtr)
        · rw [if_pos h2] at h; exact absurd h (by simp)
        · rw [if_neg h2] at h
          by_cases h3 : ([a, b].get? 1 ≠ some GoType.stringSlice)
          · rw [if_pos h3] at h; exact absurd h (by simp)
          · have ha : a = GoType.ctxPtr := by
              simpa [List.get?] using not_not.mp h2
            have hb : b = GoType.stringSlice := by
              simpa [List.get?] using not_not.mp h3
            rw [ha, hb]
      · intro h
        injection h with h1 h2
        injection h2 with h2 h3
        subst h1; subst h2
        rw [if_neg (by simp), if_neg (by simp [List.get?]),
          if_neg (by simp [List.get?])]
    | a :: b :: c :: rest =>
      constructor
      · intro h
        rw [if_pos (by simp)] at h
        exact absurd h (by simp)
      · intro h
        exact absurd h (by simp)

theorem alLookup_append_self {α : Type} {l : AList α} {name : Str} {d : α}
    (h : alLookup l name = none) :
    alLookup (l ++ [(name, d)]) name = some d := by
  induction l with
  | nil => simp [alLookup]
  | cons p rest ih =>
    by_cases hp : p.1 = name
    · simp [alLookup, hp] at h
    · simp only [alLookup, List.cons_append, hp, if_false] at h ⊢
      exact ih h

/-- C4: for a non-negative minArgs (the spec's data model takes the arity
bounds as unsigned), Register fails exactly when the name is already
registered in the actions namespace, a finite maxArgs is strictly below
minArgs, or the handler's shape does not match the arity mode (a fixed-
arity handler must take exactly a context pointer and maxArgs strings, a
variadic handler exactly a context pointer and a string slice); otherwise
it succeeds, appending the descriptor, which is then found under its name.
In this pure embedding a failing Register returns only the error, so the
registry is unchanged by construction (no partial state). -/
theorem register_fails_iff {Ctx : Type} (r : FunctionRegistry Ctx) (name : Str)
    (minArgs : Int) (maxArgs : Option Int)
    (validator : Option (Ctx → List Str → Option Str)) (handler : HandlerVal)
    (hmin : 0 ≤ minArgs) :
    ((∃ e, regRegister r name minArgs maxArgs validator handler = .error e) ↔
      registerErrCond r name minArgs maxArgs handler) ∧
    (¬ registerErrCond r name minArgs maxArgs handler →
      regRegister r name minArgs maxArgs validator handler =
        .ok { r with functions :=
          r.functions ++ [(name, ⟨name, minArgs, maxArgs, validator, handler⟩)] } ∧
      regGet { r with functions :=
          r.functions ++ [(name, ⟨name, minArgs, maxArgs, validator, handler⟩)] }
        name = some ⟨name, minArgs, maxArgs, validator, handler⟩) := by
  unfold regRegister
  rw [if_neg (by omega)]
  cases maxArgs with
  | some m =>
    by_cases hlt : m < minArgs
    · rw [if_pos (by simpa using hlt)]
      refine ⟨⟨fun _ => Or.inr (Or.inl ⟨m, rfl, hlt⟩), fun _ => ⟨.maxLtMin, rfl⟩⟩,
        fun hnc => absurd (Or.inr (Or.inl ⟨m, rfl, hlt⟩)) hnc⟩
    · rw [if_neg (by simpa using hlt)]
      by_cases hdup : (alLookup r.functions name).isSome = true
      · rw [if_pos hdup]
        refine ⟨⟨fun _ => Or.inl hdup, fun _ => ⟨.duplicate, rfl⟩⟩,
          fun hnc => absurd (Or.inl hdup) hnc⟩
      · rw [if_neg hdup]
        have hm0 : 0 ≤ m := by omega
        cases hv : validateHandlerSignature handler (some m) with
        | some e =>
          have hshape : ¬ fixedShapeOK handler m := by
            rw [← validate_fixed_iff hm0, hv]
            simp
          refine ⟨⟨fun _ => Or.inr (Or.inr (Or.inl ⟨m, rfl, hshape⟩)),
            fun _ => ⟨e, rfl⟩⟩,
            fun hnc => absurd (Or.inr (Or.inr (Or.inl ⟨m, rfl, hshape⟩))) hnc⟩
        | none =>
          have hshape : fixedShapeOK handler m := (validate_fixed_iff hm0).mp hv
          constructor
          · constructor
            · rintro ⟨e, he⟩
              exact absurd he (by simp)
            · intro hc
              exfalso
              rcases hc with hc | ⟨m2, hm2, hlt2⟩ | ⟨m2, hm2, hsh⟩ | ⟨hnone, _⟩
              · exact hdup hc
              · injection hm2 with hm2
                subst hm2
                exact hlt hlt2
              · injection hm2 with hm2
                subst hm2
                exact hsh hshape
              · cases hnone
          · intro _
            exact ⟨rfl, alLookup_append_self (Option.not_isSome_iff_eq_none.mp hdup)⟩
  | none =>
    rw [if_neg (by simp)]
    by_cases hdup : (alLookup r.functions name).isSome = true
    · rw [if_pos hdup]
      refine ⟨⟨fun _ => Or.inl hdup, fun _ => ⟨.duplicate, rfl⟩⟩,
        fun hnc => absurd (Or.inl hdup) hnc⟩
    · rw [if_neg hdup]
      cases hv : validateHandlerSignature handler none with
      | some e =>
        have hshape : ¬ variadicShapeOK handler := by
          rw [← validate_variadic_iff, hv]
          simp
        refine ⟨⟨fun _ => Or.inr (Or.inr (Or.inr ⟨rfl, hshape⟩)),
          fun _ => ⟨e, rfl⟩⟩,
          fun hnc => absurd (Or.inr (Or.inr (Or.inr ⟨rfl, hshape⟩))) hnc⟩
      | none =>
        have hshape : variadicShapeOK handler := validate_variadic_iff.mp hv
        constructor
        · constructor
          · rintro ⟨e, he⟩
            exact absurd he (by simp)
          · intro hc
            exfalso
            rcases hc with hc | ⟨m2, hm2, _⟩ | ⟨m2, hm2, _⟩ | ⟨_, hsh⟩
            · exact hdup hc
            · cases hm2
            · cases hm2
            · exact hsh hshape
        · intro _
          exact ⟨rfl, alLookup_append_self (Option.not_isSome_iff_eq_none.mp hdup)⟩

theorem register_fails_iff_witness :
    ((∃ e, regRegister (emptyRegistry Unit) c4Name 1 (some 1) none c4Handler =
        .error e) ↔
      registerErrCond (emptyRegistry Unit) c4Name 1 (some 1) c4Handler) ∧
    (¬ registerErrCond (emptyRegistry Unit) c4Name 1 (some 1) c4Handler →
      regRegister (emptyRegistry Unit) c4Name 1 (some 1) none c4Handler =
        .ok { emptyRegistry Unit with functions :=
          (emptyRegistry Unit).functions ++
            [(c4Name, ⟨c4Name, 1, some 1, none, c4Handler⟩)] } ∧
      regGet { emptyRegistry Unit with functions :=
          (emptyRegistry Unit).functions ++
            [(c4Name, ⟨c4Name, 1, some 1, none, c4Handler⟩)] } c4Name =
        some ⟨c4Name, 1, some 1, none, c4Handler⟩) :=
  register_fails_iff (emptyRegistry Unit) c4Name 1 (some 1) none c4Handler
    (by decide)

theorem isInfix_piece (a b c : Str) : List.IsInfix b (a ++ (b ++ c)) :=
  ⟨a, c, List.append_assoc a b c⟩

/-- C5: on the callback path, once the action is looked up, too few parsed
arguments fail with the arity error whose message states requires-at-least,
the bound and the actual count; too many (under a finite maxArgs) fail with
the arity error stating accepts-at-most, the bound and the actual count; and
when the arity window is met, a present validator that reports a reason
fails with a validation error wrapping that reason. In each failure the
result is an error, so no callback exists and the handler is never invoked;
the first two cases hold for every validator field, so the validator is not
consulted before the arity bounds have been checked. -/
theorem callback_arity_and_validation {Ctx : Type} (r : FunctionRegistry Ctx)
    (ctx : Ctx) (expr funcName rest0 : Str) (fn : TemplateFunction Ctx)
    (hmatch : nameMatch expr = some (funcName, rest0))
    (hget : regGet r funcName = some fn) :
    ((((parseArguments (trimSpace rest0)).length : Int) < fn.minA →
      parseAndCreateCallback r ctx expr =
        .error (.arityMin funcName fn.minA (parseArguments (trimSpace rest0)).length) ∧
      List.IsInfix ((" requires at least ").toList)
        (ExecErr.message (.arityMin funcName fn.minA
          (parseArguments (trimSpace rest0)).length)) ∧
      List.IsInfix (intToStr fn.minA)
        (ExecErr.message (.arityMin funcName fn.minA
          (parseArguments (trimSpace rest0)).length)) ∧
      List.IsInfix (natToStr (parseArguments (trimSpace rest0)).length)
        (ExecErr.message (.arityMin funcName fn.minA
          (parseArguments (trimSpace rest0)).length))) ∧
    (∀ m, fn.maxA = some m →
      ¬ ((parseArguments (trimSpace rest0)).length : Int) < fn.minA →
      ((parseArguments (trimSpace rest0)).length : Int) > m →
      parseAndCreateCallback r ctx expr =
        .error (.arityMax funcName m (parseArguments (trimSpace rest0)).length) ∧
      List.IsInfix ((" accepts at most ").toList)
        (ExecErr.message (.arityMax funcName m
          (parseArguments (trimSpace rest0)).length)) ∧
      List.IsInfix (intToStr m)
        (ExecErr.message (.arityMax funcName m
          (parseArguments (trimSpace rest0)).length)) ∧
      List.IsInfix (natToStr (parseArguments (trimSpace rest0)).length)
        (ExecErr.message (.arityMax funcName m
          (parseArguments (trimSpace rest0)).length))) ∧
    (∀ vd msg, fn.validator = some vd →
      ¬ ((parseArguments (trimSpace rest0)).length : Int) < fn.minA →
      (match fn.maxA with
       | some m => ((parseArguments (trimSpace rest0)).length : Int) ≤ m
       | none => True) →
      vd ctx (parseArguments (trimSpace rest0)) = some msg →
      parseAndCreateCallback r ctx expr = .error (.validation funcName msg) ∧
      List.IsInfix msg (ExecErr.message (.validation funcName msg)))) := by
  have hred : parseAndCreateCallback r ctx expr =
      (if ((parseArguments (trimSpace rest0)).length : Int) < fn.minA then
        .error (.arityMin funcName fn.minA (parseArguments (trimSpace rest0)).length)
      else
        match fn.maxA with
        | some m =>
          if ((parseArguments (trimSpace rest0)).length : Int) > m then
            .error (.arityMax funcName m (parseArguments (trimSpace rest0)).length)
          else validateAndCreate ctx funcName fn (parseArguments (trimSpace rest0))
        | none => validateAndCreate ctx funcName fn
            (parseArguments (trimSpace rest0))) := by
    simp only [parseAndCreateCallback, hmatch, hget]
  refine ⟨?_, ?_, ?_⟩
  · intro hlt
    rw [hred, if_pos hlt]
    refine ⟨rfl, ?_, ?_, ?_⟩
    · exact ⟨("function ").toList ++ goQuote funcName,
        intToStr fn.minA ++ (" argument(s), got ").toList ++
          natToStr (parseArguments (trimSpace rest0)).length,
        by simp [ExecErr.message, List.append_assoc]⟩
    · exact ⟨("function ").toList ++ goQuote funcName ++
          (" requires at least ").toList,
        (" argument(s), got ").toList ++
          natToStr (parseArguments (trimSpace rest0)).length,
        by simp [ExecErr.message, List.append_assoc]⟩
    · exact ⟨("function ").toList ++ goQuote funcName ++
          (" requires at least ").toList ++ intToStr fn.minA ++
          (" argument(s), got ").toList,
        [], by simp [ExecErr.message, List.append_assoc]⟩
  · intro m hm hnlt hgt
    have hred2 : parseAndCreateCallback r ctx expr =
        (if ((parseArguments (trimSpace rest0)).length : Int) > m then
          .error (.arityMax funcName m (parseArguments (trimSpace rest0)).length)
        else validateAndCreate ctx funcName fn
          (parseArguments (trimSpace rest0))) := by
      rw [hred, if_neg hnlt, hm]
    rw [hred2, if_pos hgt]
    refine ⟨rfl, ?_, ?_, ?_⟩
    · exact ⟨("function ").toList ++ goQuote funcName,
        intToStr m ++ (" argument(s), got ").toList ++
          natToStr (parseArguments (trimSpace rest0)).length,
        by simp [ExecErr.message, List.append_assoc]⟩
    · exact ⟨("function ").toList ++ goQuote funcName ++
          (" accepts at most ").toList,
        (" argument(s), got ").toList ++
          natToStr (parseArguments (trimSpace rest0)).length,
        by simp [ExecErr.message, List.append_assoc]⟩
    · exact ⟨("function ").toList ++ goQuote funcName ++
          (" accepts at most ").toList ++ intToStr m ++
          (" argument(s), got ").toList,
        [], by simp [ExecErr.message, List.append_assoc]⟩
  · intro vd msg hvd hnlt hle hmsg
    have hval : validateAndCreate ctx funcName fn (parseArguments (trimSpace rest0)) =
        .error (.validation funcName msg) := by
      simp only [validateAndCreate, hvd, hmsg]
    have hinf : List.IsInfix msg (ExecErr.message (.validation funcName msg)) :=
      ⟨("validation failed for function ").toList ++ goQuote funcName ++
        (": ").toList, [], by simp [ExecErr.message, List.append_assoc]⟩
    cases hma : fn.maxA with
    | some m =>
      rw [hma] at hle
      have hle2 : ((parseArguments (trimSpace rest0)).length : Int) ≤ m := hle
      have hred2 : parseAndCreateCallback r ctx expr =
          (if ((parseArguments (trimSpace rest0)).length : Int) > m then
            .error (.arityMax funcName m (parseArguments (trimSpace rest0)).length)
          else validateAndCreate ctx funcName fn
            (parseArguments (trimSpace rest0))) := by
        rw [hred, if_neg hnlt, hma]
      rw [hred2, if_neg (by omega), hval]
      exact ⟨rfl, hinf⟩
    | none =>
      have hred2 : parseAndCreateCallback r ctx expr =
          validateAndCreate ctx funcName fn (parseArguments (trimSpace rest0)) := by
        rw [hred, if_neg hnlt, hma]
      rw [hred2, hval]
      exact ⟨rfl, hinf⟩

theorem callback_arity_witness :
    parseAndCreateCallback c5Reg () (("act \"x\"").toList) =
      .error (.arityMin (("act").toList) 2 1) ∧
    List.IsInfix ((" requires at least ").toList)
      (ExecErr.message (.arityMin (("act").toList) 2 1)) ∧
    List.IsInfix (intToStr 2) (ExecErr.message (.arityMin (("act").toList) 2 1)) ∧
    List.IsInfix (natToStr 1) (ExecErr.message (.arityMin (("act").toList) 2 1)) :=
  (callback_arity_and_validation c5Reg () (("act \"x\"").toList)
      (("act").toList) (("\"x\"").toList)
      ⟨("act").toList, 2, some 2, none,
        .fn [GoType.ctxPtr, GoType.stringT, GoType.stringT]⟩
      rfl rfl).1 (by decide)

/-- C6 counterexample: the payload backslash-b space quote-x-quote. The
scanning loop writes a backslash-escaped character into the pending buffer
even outside quotes and does not clear the buffer when a quote opens, so
the unquoted token contributes the character b to the following quoted
argument: the parser returns the single argument bx, while the spec's
description (unquoted tokens contribute zero arguments; only double-quoted
substrings are captured) yields x. -/
theorem parseArguments_leak_counterexample :
    parseArguments (("\\b \"x\"").toList) = [("bx").toList] ∧
    parseArgumentsSpec (("\\b \"x\"").toList) = [("x").toList] ∧
    parseArguments (("\\b \"x\"").toList) ≠
      parseArgumentsSpec (("\\b \"x\"").toList) := by
  decide

theorem scanStep_loop_eq :
    ∀ (s : Str) (emitted : List Str) (cur : Str) (inQ esc : Bool),
      ((s.foldl scanStep ⟨emitted, cur, inQ, esc⟩).emitted).reverse =
        emitted.reverse ++ parseArgsLoop s cur inQ esc := by
  intro s
  induction s with
  | nil => intro emitted cur inQ esc; simp [parseArgsLoop]
  | cons c rest ih =>
    intro emitted cur inQ esc
    by_cases he : esc = true
    · subst he
      simp only [List.foldl_cons, scanStep, parseArgsLoop, if_true]
      exact ih emitted (cur ++ [c]) inQ false
    · have he' : esc = false := by revert he; cases esc <;> simp
      subst he'
      by_cases hb : c = '\\'
      · simp only [List.foldl_cons, scanStep, parseArgsLoop, hb, if_true,
          Bool.false_eq_true, if_false, if_pos rfl]
        exact ih emitted cur inQ true
      · by_cases hq : c = Char.ofNat 34
        · subst hq
          cases hinq : inQ with
          | true =>
            simp only [List.foldl_cons, scanStep, parseArgsLoop,
              Bool.false_eq_true, if_false,
              if_neg (by decide : ¬ (Char.ofNat 34) = '\\'), if_pos rfl,
              ite_true]
            rw [ih (cur :: emitted) [] false false]
            simp
          | false =>
            simp only [List.foldl_cons, scanStep, parseArgsLoop,
              Bool.false_eq_true, if_false,
              if_neg (by decide : ¬ (Char.ofNat 34) = '\\'), if_pos rfl,
              ite_false]
            exact ih emitted cur true false
        · cases hinq : inQ with
          | true =>
            simp only [List.foldl_cons, scanStep, parseArgsLoop, hb, hq,
              Bool.false_eq_true, if_false, if_true]
            exact ih emitted (cur ++ [c]) true false
          | false =>
            simp only [List.foldl_cons, scanStep, parseArgsLoop, hb, hq,
              Bool.false_eq_true, if_false]
            exact ih emitted cur false false

theorem parseArgsLoop_no_quote :
    ∀ (s : Str) (cur : Str) (inQ esc : Bool),
      (Char.ofNat 34) ∉ s → parseArgsLoop s cur inQ esc = [] := by
  intro s
  induction s with
  | nil => intro cur inQ esc _; simp [parseArgsLoop]
  | cons c rest ih =>
    intro cur inQ esc hq
    have hc : ¬ c = Char.ofNat 34 := fun h => hq (h ▸ List.mem_cons_self c rest)
    have hrest : Char.ofNat 34 ∉ rest := fun h => hq (List.mem_cons_of_mem c h)
    unfold parseArgsLoop
    split_ifs <;>
      first
      | exact absurd (by assumption) hc
      | exact ih _ _ _ hrest

/-- C6 amended: the callback-path parser emits an argument exactly at each
closing double quote, the argument being the pending buffer; a backslash
escapes the character that follows it, and escaped characters are buffered
even outside quotes, so an unquoted token containing escapes contributes
its escaped characters to the next quoted argument; unescaped characters
outside quotes are discarded, and a payload containing no double quote —
bare words in particular — yields the empty argument list. -/
theorem parseArguments_amended_eq (s : Str) :
    parseArguments s = parseArgumentsAmended s ∧
    ((Char.ofNat 34) ∉ s → parseArguments s = []) := by
  constructor
  · by_cases hs : s = []
    · subst hs; rfl
    · unfold parseArguments parseArgumentsAmended
      rw [if_neg hs, scanStep_loop_eq s [] [] false false]
      simp
  · intro hq
    unfold parseArguments
    by_cases hs : s = []
    · rw [if_pos hs]
    · rw [if_neg hs]
      exact parseArgsLoop_no_quote s [] false false hq

theorem parseArguments_amended_witness :
    (Char.ofNat 34) ∉ (("bare words \\only").toList) ∧
    parseArguments (("bare words \\only").toList) = [] :=
  ⟨by decide, (parseArguments_amended_eq (("bare words \\only").toList)).2 (by decide)⟩

/-- C7: on the evaluator path, for every expression whose name pattern
matches (yielding the call name and the remaining payload), quoted-argument
extraction is attempted first and its result is used whenever it is
non-empty; exactly when it yields zero arguments, the trimmed payload is
split on white space and those words become the arguments (so a single
bare word such as a state key name is accepted unquoted, and bare words are
ignored when a quoted argument is present). -/
theorem evaluator_args_fallback (expr funcName rest0 : Str)
    (hmatch : nameMatch (trimSpace expr) = some (funcName, rest0)) :
    (parseEvaluatorExpr expr).1 = funcName ∧
    (parseArguments (trimSpace rest0) ≠ [] →
      (parseEvaluatorExpr expr).2 = parseArguments (trimSpace rest0)) ∧
    (parseArguments (trimSpace rest0) = [] →
      (parseEvaluatorExpr expr).2 = fields (trimSpace rest0)) := by
  have he : ¬ trimSpace expr = [] := by
    intro h
    rw [h] at hmatch
    simp [nameMatch] at hmatch
  by_cases hrest : trimSpace rest0 = []
  · have hres : parseEvaluatorExpr expr = (funcName, []) := by
      simp only [parseEvaluatorExpr, if_neg he, hmatch, hrest, ite_true]
    refine ⟨by rw [hres], ?_, ?_⟩
    · intro hne
      exact absurd (by rw [hrest]; rfl) hne
    · intro _
      rw [hres, hrest]
      rfl
  · by_cases hargs : parseArguments (trimSpace rest0) = []
    · have hres : parseEvaluatorExpr expr = (funcName, fields (trimSpace rest0)) := by
        simp only [parseEvaluatorExpr, if_neg he, hmatch, if_neg hrest, hargs,
          ite_true]
      refine ⟨by rw [hres], fun hne => absurd hargs hne, fun _ => by rw [hres]⟩
    · have hres : parseEvaluatorExpr expr =
          (funcName, parseArguments (trimSpace rest0)) := by
        simp only [parseEvaluatorExpr, if_neg he, hmatch, if_neg hrest,
          if_neg hargs]
      exact ⟨by rw [hres], fun _ => by rw [hres], fun h => absurd h hargs⟩

theorem evaluator_args_fallback_witness :
    (parseEvaluatorExpr (("bindState name").toList)).1 = ("bindState").toList ∧
    (parseArguments (("name").toList) ≠ [] →
      (parseEvaluatorExpr (("bindState name").toList)).2 =
        parseArguments (("name").toList)) ∧
    (parseArguments (("name").toList) = [] →
      (parseEvaluatorExpr (("bindState name").toList)).2 =
        fields (("name").toList)) := by
  have h := evaluator_args_fallback (("bindState name").toList)
    (("bindState").toList) (("name").toList) (by decide)
  refine ⟨h.1, ?_, ?_⟩
  · intro hne
    have := h.2.1 (by revert hne; decide)
    simpa using this
  · intro hz
    have := h.2.2 (by revert hz; decide)
    simpa using this

theorem evalSpan_check_error {Ctx : Type} (r : FunctionRegistry Ctx) (ctx : Ctx)
    (part : Str) :
    (∀ e, spanCheck r part = some e → evalSpan r ctx part = .error e) ∧
    (spanCheck r part = none → ∃ t, evalSpan r ctx part = .ok t) := by
  unfold spanCheck evalSpan
  cases hg : regGetEvaluator r (parseEvaluatorExpr (trimSpace part)).1 with
  | none =>
    simp only [hg]
    constructor
    · intro e he
      injection he with he
      rw [← he]
    · intro h
      cases h
  | some ev =>
    simp only [hg]
    split_ifs with ha
    · constructor
      · intro e he
        injection he with he
        rw [← he]
      · intro h
        cases h
    · constructor
      · intro e he
        cases he
      · intro _
        exact ⟨_, rfl⟩

theorem evalParts_snd {Ctx : Type} (r : FunctionRegistry Ctx) (ctx : Ctx) :
    ∀ (parts : List Str) (b : Bool),
      (evalParts r ctx parts b).2 = firstSpanError r parts b := by
  intro parts
  induction parts with
  | nil => intro b; rfl
  | cons part rest ih =>
    intro b
    cases b with
    | false =>
      simp only [evalParts, firstSpanError, Bool.false_eq_true, ite_false,
        Bool.not_false]
      rw [← ih true]
      cases hrec : evalParts r ctx rest true with
      | mk out oe => cases oe <;> simp
    | true =>
      simp only [evalParts, firstSpanError, ite_true, Bool.not_true]
      cases hspan : spanCheck r part with
      | some e =>
        rw [(evalSpan_check_error r ctx part).1 e hspan]
      | none =>
        obtain ⟨t, ht⟩ := (evalSpan_check_error r ctx part).2 hspan
        rw [ht, ← ih false]
        cases hrec : evalParts r ctx rest false with
        | mk out oe => cases oe <;> simp

theorem evalParts_error_empty {Ctx : Type} (r : FunctionRegistry Ctx) (ctx : Ctx) :
    ∀ (parts : List Str) (b : Bool) (e : EvalErr),
      (evalParts r ctx parts b).2 = some e → (evalParts r ctx parts b).1 = [] := by
  intro parts
  induction parts with
  | nil => intro b e h; cases h
  | cons part rest ih =>
    intro b e h
    simp only [evalParts] at h ⊢
    cases hhd : (if b = true then evalSpan r ctx part else Except.ok part) with
    | error e2 => simp
    | ok t =>
      cases hrec : evalParts r ctx rest (!b) with
      | mk out oe =>
        try rw [hhd] at h
        try rw [hrec] at h
        cases oe with
        | none => simp at h
        | some e2 => simp

theorem evalErr_name_in_message (e : EvalErr) :
    List.IsInfix (EvalErr.evalName e) (EvalErr.message e) := by
  cases e with
  | unknownEvaluator name =>
    exact ⟨("unknown evaluator: ").toList, [],
      by simp [EvalErr.message, EvalErr.evalName]⟩
  | arity name min max got =>
    refine ⟨("evaluator ").toList ++ [Char.ofNat 34],
      [Char.ofNat 34] ++ (" expects ").toList ++ intToStr min ++ ("-").toList ++
        intToStr max ++ (" args, got ").toList ++ natToStr got,
      ?_⟩
    simp [EvalErr.message, EvalErr.evalName, goQuote, List.append_assoc]

/-- C8: EvaluateToString returns, as its error, exactly the error of the
first offending expression span (unknown evaluator, or argument count
outside the evaluator's window — the content of spanCheck), independent of
later spans and of handler output; whenever an error is returned the
rendered string is the empty string, never a partial concatenation, and the
error's message names the offending evaluator; in particular, with no
evaluator registered under unknownEval, the template consisting of that
single expression yields the empty string and the unknown-evaluator error
naming unknownEval. -/
theorem evaluateToString_first_error {Ctx : Type} (r : FunctionRegistry Ctx)
    (ctx : Ctx) (s : Str) :
    ((evaluateToString r ctx s).2 =
      firstSpanError r (splitTemplateString s) false) ∧
    (∀ e, (evaluateToString r ctx s).2 = some e →
      (evaluateToString r ctx s).1 = [] ∧
      List.IsInfix (EvalErr.evalName e) (EvalErr.message e)) ∧
    (regGetEvaluator r (("unknownEval").toList) = none →
      evaluateToString r ctx
          (openMarker ++ (" unknownEval ").toList ++ closeMarker) =
        ([], some (.unknownEvaluator (("unknownEval").toList)))) := by
  refine ⟨?_, ?_, ?_⟩
  · by_cases hs : s = []
    · subst hs
      have : splitTemplateString ([] : Str) = [([] : Str)] := by decide
      rw [this]
      rfl
    · unfold evaluateToString
      rw [if_neg hs]
      exact evalParts_snd r ctx (splitTemplateString s) false
  · intro e he
    refine ⟨?_, evalErr_name_in_message e⟩
    by_cases hs : s = []
    · subst hs
      simp [evaluateToString] at he
    · unfold evaluateToString at he ⊢
      rw [if_neg hs] at he ⊢
      exact evalParts_error_empty r ctx (splitTemplateString s) false e he
  · intro hno
    have hne : ¬ (openMarker ++ (" unknownEval ").toList ++ closeMarker) =
        ([] : Str) := by decide
    have hsplit : splitTemplateString
        (openMarker ++ (" unknownEval ").toList ++ closeMarker) =
        [[], (" unknownEval ").toList, []] := by decide
    have hpe : (parseEvaluatorExpr (trimSpace ((" unknownEval ").toList))).1 =
        ("unknownEval").toList := by decide
    have hspan : evalSpan r ctx ((" unknownEval ").toList) =
        .error (.unknownEvaluator (("unknownEval").toList)) := by
      unfold evalSpan
      rw [hpe, hno]
    unfold evaluateToString
    rw [if_neg hne]
    unfold evaluateTemplateString
    rw [hsplit]
    simp only [evalParts, ite_true, ite_false, Bool.false_eq_true,
      Bool.not_false, Bool.not_true]
    rw [hspan]

theorem evaluateToString_first_error_witness :
    evaluateToString (emptyRegistry Unit) ()
        (openMarker ++ (" unknownEval ").toList ++ closeMarker) =
      ([], some (.unknownEvaluator (("unknownEval").toList))) ∧
    List.IsInfix (("unknownEval").toList)
      (EvalErr.message (.unknownEvaluator (("unknownEval").toList))) := by
  have h := evaluateToString_first_error (emptyRegistry Unit) ()
    (openMarker ++ (" unknownEval ").toList ++ closeMarker)
  have h3 := h.2.2 rfl
  exact ⟨h3, (h.2.1 (EvalErr.unknownEvaluator (("unknownEval").toList))
    (by rw [h3])).2⟩

/-- C9: for a registered fixed-arity action whose handler shape passed
registration (so the handler declares exactly maxArgs string parameters
after the context) and whose validator, if any, is absent, any parsed
argument count in the half-open window from minArgs up to but excluding
maxArgs is accepted by parseAndCreateCallback, which returns a callback;
invoking that callback dispatches the argc arguments positionally to a
handler expecting maxArgs of them, and reflect.Value.Call panics on the
argument-count mismatch — the engine guards this neither at construction
nor at invocation time. -/
theorem callback_under_arity_panics {Ctx : Type} (r : FunctionRegistry Ctx)
    (ctx : Ctx) (expr funcName rest0 : Str) (fn : TemplateFunction Ctx) (m : Int)
    (hmatch : nameMatch expr = some (funcName, rest0))
    (hget : regGet r funcName = some fn)
    (hmax : fn.maxA = some m)
    (hvalid : validateHandlerSignature fn.handler fn.maxA = none)
    (hval : fn.validator = none)
    (hargs_ge : ((parseArguments (trimSpace rest0)).length : Int) ≥ fn.minA)
    (hargs_lt : ((parseArguments (trimSpace rest0)).length : Int) < m) :
    ∃ cb, parseAndCreateCallback r ctx expr = .ok cb ∧
      invokeCallback cb = .error GoPanic.reflectArity := by
  have hm0 : 0 ≤ m := by omega
  have hshape : fixedShapeOK fn.handler m := by
    rw [← validate_fixed_iff hm0]
    rw [← hmax]
    exact hvalid
  have hred1 : parseAndCreateCallback r ctx expr =
      (if ((parseArguments (trimSpace rest0)).length : Int) > m then
        .error (.arityMax funcName m (parseArguments (trimSpace rest0)).length)
      else validateAndCreate ctx funcName fn
        (parseArguments (trimSpace rest0))) := by
    simp only [parseAndCreateCallback, hmatch, hget]
    rw [if_neg (by omega), hmax]
  have hcb : parseAndCreateCallback r ctx expr =
      .ok ⟨fn.handler, fn.maxA, parseArguments (trimSpace rest0), ctx⟩ := by
    rw [hred1, if_neg (by omega)]
    simp only [validateAndCreate, hval, createCallbackFromHandler]
  refine ⟨_, hcb, ?_⟩
  unfold fixedShapeOK at hshape
  simp only [invokeCallback, hmax, hshape, reflectCall]
  rw [if_pos (by
    simp only [List.length_cons, List.length_map, List.length_replicate]
    omega)]

theorem callback_under_arity_witness :
    ∃ cb, parseAndCreateCallback c9Reg () (("act2 \"x\"").toList) = .ok cb ∧
      invokeCallback cb = .error GoPanic.reflectArity :=
  callback_under_arity_panics c9Reg () (("act2 \"x\"").toList)
    (("act2").toList) (("\"x\"").toList)
    ⟨("act2").toList, 1, some 2, none,
      .fn [GoType.ctxPtr, GoType.stringT, GoType.stringT]⟩ 2
    rfl rfl rfl (by decide) rfl (by decide) (by decide)

/-- C10 counterexample: on the input abc followed by an unclosed open
marker and def, the splitter does keep the characters of the unmatched
opening sequence verbatim, but places them in the final element, which sits
at index one — an expression position, not a literal segment; evaluating
the template therefore does not reproduce the tail: name extraction fails
on the brace, the empty name is not a registered evaluator, and
EvaluateToString returns the empty string with an unknown-evaluator error
instead of the input text. -/
theorem unclosed_marker_counterexample :
    splitTemplateString (("abc").toList ++ openMarker ++ ("def").toList) =
      [("abc").toList, openMarker ++ ("def").toList] ∧
    evaluateToString (emptyRegistry Unit) ()
        (("abc").toList ++ openMarker ++ ("def").toList) =
      ([], some (.unknownEvaluator [])) := by
  decide

theorem trimSpace_head (c : Char) (t : Str) (hc : isGoSpace c = false) :
    ∃ t2, trimSpace (c :: t) = c :: t2 := by
  unfold trimSpace
  rw [List.dropWhile_cons, if_neg (by simp [hc])]
  rw [List.reverse_cons, List.dropWhile_append]
  by_cases hd : (t.reverse.dropWhile isGoSpace).isEmpty
  · rw [if_pos hd]
    refine ⟨[], ?_⟩
    rw [List.dropWhile_cons, if_neg (by simp [hc])]
    rfl
  · rw [if_neg hd]
    exact ⟨(t.reverse.dropWhile isGoSpace).reverse, by
      rw [List.reverse_append, List.reverse_cons, List.reverse_nil,
        List.nil_append]
      rfl⟩

theorem nameMatch_brace (t : Str) : nameMatch (Char.ofNat 123 :: t) = none := by
  have htw : (Char.ofNat 123 :: t).takeWhile isWordChar = [] := by
    rw [List.takeWhile_cons,
      if_neg (by decide : ¬ isWordChar (Char.ofNat 123) = true)]
  unfold nameMatch
  simp [htw]

theorem parseEvaluatorExpr_brace (t : Str) :
    parseEvaluatorExpr (Char.ofNat 123 :: t) = ([], []) := by
  obtain ⟨t2, ht2⟩ := trimSpace_head (Char.ofNat 123) t (by decide)
  simp only [parseEvaluatorExpr, ht2]
  rw [if_neg (by simp), nameMatch_brace]

theorem evalSpan_unclosed {Ctx : Type} (r : FunctionRegistry Ctx) (ctx : Ctx)
    (rest : Str) (hno : regGetEvaluator r [] = none) :
    evalSpan r ctx (openMarker ++ rest) = .error (.unknownEvaluator []) := by
  have hrw : openMarker ++ rest = Char.ofNat 123 :: (Char.ofNat 123 :: rest) := rfl
  obtain ⟨t1, ht1⟩ := trimSpace_head (Char.ofNat 123) (Char.ofNat 123 :: rest)
    (by decide)
  unfold evalSpan
  rw [hrw, ht1]
  simp only [parseEvaluatorExpr_brace, hno]

/-- C10 amended: when the first open marker of a template is never closed,
the splitter keeps the opening sequence and the entire tail verbatim as the
final element of the split, but that element occupies an expression
position at index one, not a literal segment; EvaluateToString therefore
does not reproduce the tail — parsing the tail as an evaluator call yields
an empty name (the brace is not a word character), and when no evaluator is
registered under the empty name, evaluation aborts with an unknown-
evaluator error and an empty rendered string. -/
theorem unclosed_marker_amended {Ctx : Type} (r : FunctionRegistry Ctx)
    (ctx : Ctx) (s : Str) (start : Nat)
    (h1 : findSub openMarker s = some start)
    (h2 : findSub closeMarker (s.drop (start + 2)) = none)
    (hno : regGetEvaluator r [] = none) :
    splitTemplateString s = [s.take start, openMarker ++ s.drop (start + 2)] ∧
    evaluateToString r ctx s = ([], some (.unknownEvaluator [])) := by
  have hs_ne : ¬ s = [] := by
    intro h
    subst h
    have := findSub_bound h1
    simp [openMarker] at this
  have hsplit := splitTemplateString_unclosed h1 h2
  have hspan := evalSpan_unclosed r ctx (s.drop (start + 2)) hno
  refine ⟨hsplit, ?_⟩
  unfold evaluateToString
  rw [if_neg hs_ne]
  unfold evaluateTemplateString
  rw [hsplit]
  simp only [evalParts, ite_true, ite_false, Bool.false_eq_true,
    Bool.not_false, Bool.not_true]
  rw [hspan]

theorem unclosed_marker_amended_witness :
    splitTemplateString (("xy").toList ++ openMarker ++ ("tail").toList) =
      [(("xy").toList ++ openMarker ++ ("tail").toList).take 2,
       openMarker ++ (("xy").toList ++ openMarker ++ ("tail").toList).drop 4] ∧
    evaluateToString (emptyRegistry Unit) ()
        (("xy").toList ++ openMarker ++ ("tail").toList) =
      ([], some (.unknownEvaluator [])) :=
  unclosed_marker_amended (emptyRegistry Unit) ()
    (("xy").toList ++ openMarker ++ ("tail").toList) 2
    (by decide) (by decide) rfl

end TviewYaml
